import Mathlib

/-!
# FitsTS container codec — verification of the header card store and codec claims

A shallow embedding of the FitsTS TypeScript sources (`fitsHeader.ts`,
`fitsHDU.ts`, `fits.ts`): the header card store (`FitsHeader`), the HDU
descriptor (`FitsHDU`) and the container codec (`Fits.fromArrayBuffer` /
`Fits.toArrayBuffer`).

Modelling conventions:
* JS strings are Lean `String`s manipulated through their character lists;
  all header text is ASCII, so one character = one byte.
* The byte stream handed to the decoder / produced by the encoder is a
  `List Char` (each character standing for one byte, as produced by
  `String.fromCharCode` / consumed by `charCodeAt` in the source).
* JS numbers are modelled exactly where they are integral (`Int`); the
  IEEE-754 specific parts (non-integral floats, `BZERO`/`BSCALE` scaling,
  typed-array element codecs) are kept symbolic and are exercised by no
  theorem below.
* JS exceptions are `Except FitsError`.
-/

set_option maxRecDepth 400000

namespace FitsTS

/-! ## JS string primitives (ASCII fragment) -/

/-- The whitespace characters recognised by JS `String.prototype.trim`
(ASCII fragment; header records only ever contain ASCII). -/
def isJsSpace (c : Char) : Bool :=
  c = ' ' || c = '\t' || c = '\n' || c = '\r' || c = '\x0b' || c = '\x0c'

/-- JS `s.padEnd(n, ' ')`. -/
def jsPadEnd (s : String) (n : Nat) : String :=
  ⟨s.data ++ List.replicate (n - s.data.length) ' '⟩

/-- JS `s.padStart(n, ' ')`. -/
def jsPadStart (s : String) (n : Nat) : String :=
  ⟨List.replicate (n - s.data.length) ' ' ++ s.data⟩

/-- JS `s.substring(0, n)` / `s.slice(0, n)`. -/
def jsTake (s : String) (n : Nat) : String :=
  ⟨s.data.take n⟩

/-- JS `s.substring(n)` (to the end of the string). -/
def jsDrop (s : String) (n : Nat) : String :=
  ⟨s.data.drop n⟩

/-- JS `s.substring(a, b)` for `a ≤ b`. -/
def jsSlice (s : String) (a b : Nat) : String :=
  ⟨(s.data.take b).drop a⟩

/-- JS `s.trimStart()`. -/
def jsTrimStart (s : String) : String :=
  ⟨s.data.dropWhile isJsSpace⟩

/-- JS `s.trimEnd()`. -/
def jsTrimEnd (s : String) : String :=
  ⟨(s.data.reverse.dropWhile isJsSpace).reverse⟩

/-- JS `s.trim()`. -/
def jsTrim (s : String) : String :=
  jsTrimStart (jsTrimEnd s)

/-- JS `s.startsWith(p)`. -/
def jsStartsWith (s p : String) : Bool :=
  p.data.isPrefixOf s.data

/-- Index of the first occurrence of a character in a character list. -/
def idxOf? (c : Char) : List Char → Option Nat
  | [] => none
  | x :: l => if x = c then some 0 else (idxOf? c l).map (· + 1)

/-- JS `s.indexOf(c)` for a single character, as an `Option` (`none` = `-1`). -/
def jsIndexOfChar (s : String) (c : Char) : Option Nat :=
  idxOf? c s.data

/-- JS `s.lastIndexOf(c)` for a single character, as an `Option` (`none` = `-1`). -/
def jsLastIndexOfChar (s : String) (c : Char) : Option Nat :=
  match idxOf? c s.data.reverse with
  | some i => some (s.data.length - 1 - i)
  | none => none

/-- JS `s.replace(/'/g, "''")`: double every single quote. -/
def escapeQuotes (s : String) : String :=
  ⟨s.data.flatMap (fun c => if c = '\'' then ['\'', '\''] else [c])⟩

/-- JS `s.replace(/''/g, "'")`: collapse doubled quotes left to right,
without overlap. -/
def unescapeQuotesAux : List Char → List Char
  | [] => []
  | '\'' :: '\'' :: rest => '\'' :: unescapeQuotesAux rest
  | c :: rest => c :: unescapeQuotesAux rest

/-- String wrapper for `unescapeQuotesAux`. -/
def unescapeQuotes (s : String) : String :=
  ⟨unescapeQuotesAux s.data⟩

/-- JS `s.replace('D', 'E')`: replace only the first occurrence. -/
def replaceFirstDAux : List Char → List Char
  | [] => []
  | 'D' :: rest => 'E' :: rest
  | c :: rest => c :: replaceFirstDAux rest

/-- String wrapper for `replaceFirstDAux`. -/
def replaceFirstD (s : String) : String :=
  ⟨replaceFirstDAux s.data⟩

/-- Does the text contain `.`, `E` or `e` (the JS test `/[.Ee]/`)? -/
def hasFloatMark (s : String) : Bool :=
  s.data.any (fun c => c = '.' || c = 'E' || c = 'e')

/-! ## Decimal numerals

`jsNatToString`/`jsIntToString` model `Number.prototype.toString` on integral
values (plain decimal, `-` sign, no leading zeros); `jsParseInt` models
`parseInt(s, 10)` (skip whitespace, optional sign, longest digit prefix,
`none` = `NaN` when there is no digit). Exact for `|n| < 2^53`, the range in
which JS integers are exact. -/

/-- Least-significant-first decimal digits of a positive natural. -/
def natDigitsRev : Nat → List Char
  | 0 => []
  | n + 1 =>
    Char.ofNat (48 + (n + 1) % 10) :: natDigitsRev ((n + 1) / 10)
decreasing_by exact Nat.div_lt_self (Nat.succ_pos n) (by omega)

/-- Decimal rendering of a natural number. -/
def jsNatToString (n : Nat) : String :=
  if n = 0 then "0" else ⟨(natDigitsRev n).reverse⟩

/-- Decimal rendering of an integer (JS `Number.prototype.toString` on an
integral value). -/
def jsIntToString (i : Int) : String :=
  if i < 0 then "-" ++ jsNatToString i.natAbs else jsNatToString i.toNat

/-- Decimal digit test. -/
def isDigitChar (c : Char) : Bool :=
  '0' ≤ c && c ≤ '9'

/-- Fold a digit list (most significant first) to a natural. -/
def digitsToNat (ds : List Char) : Nat :=
  ds.foldl (fun acc c => 10 * acc + (c.toNat - 48)) 0

/-- JS `parseInt(s, 10)`: skip leading whitespace, optional sign, longest
digit prefix; `none` models `NaN`. -/
def jsParseInt (s : String) : Option Int :=
  let t := s.data.dropWhile isJsSpace
  let sign : Int := if t.head? = some '-' then -1 else 1
  let t := if t.head? = some '-' || t.head? = some '+' then t.tail else t
  let digits := t.takeWhile isDigitChar
  if digits.isEmpty then none else some (sign * (digitsToNat digits : Int))

/-! ## Values and errors -/

/-- A header card value (`fits.ts` stores JS values of type string / boolean /
number in the card store). Integral numbers are exact (`vint`); a non-integral
number is represented symbolically by the numeric text it was parsed from
(`vfloat`), since IEEE-754 doubles are outside this embedding; `vnan` is the
JS `NaN` produced by a failed `parseInt`. -/
inductive FitsValue where
  | vstr (s : String)
  | vbool (b : Bool)
  | vint (n : Int)
  | vfloat (s : String)
  | vnan
deriving DecidableEq, Repr

/-- `FitsError` from `errors.ts`: an `Error` carrying a message. -/
structure FitsError where
  message : String
deriving DecidableEq, Repr

/-! ## The header card store (`fitsHeader.ts`) -/

/-- An entry of `FitsHeader.cardList`: `{ key, value?, comment? }`.
`value = none` models the JS `undefined` value. -/
structure Card where
  key : String
  value : Option FitsValue
  comment : Option String
deriving DecidableEq, Repr

/-- An entry of the `FitsHeader.cards` map: `{ value, comment? }`. -/
structure MapCard where
  value : Option FitsValue
  comment : Option String
deriving DecidableEq, Repr

/-- The card store state: the ordered `cardList` and the key-indexed `cards`
map (modelled as an insertion-ordered association list, first match wins, as
for a JS `Map`). The source pushes *separate* objects into the two
structures, so after an update to an existing key the map entry and the
`cardList` entry can disagree; the model keeps both components for that
reason. -/
structure FitsHeader where
  cardList : List Card
  cards : List (String × MapCard)
deriving DecidableEq, Repr

namespace FitsHeader

/-- The empty store (`new FitsHeader()`). -/
def empty : FitsHeader := ⟨[], []⟩

/-- `Map.get` on the `cards` index. -/
def mapFind (h : FitsHeader) (key : String) : Option MapCard :=
  (h.cards.find? (fun p => p.1 = key)).map (·.2)

/-- `get(key)`: `this.cards.get(key)?.value`. -/
def get (h : FitsHeader) (key : String) : Option FitsValue :=
  match h.mapFind key with
  | some mc => mc.value
  | none => none

/-- The unchecked part of `set` (the source past the COMMENT/HISTORY guard):
update the map entry in place when the key exists (`card.value = value`, and
`card.comment = comment` only when a comment is provided, the `cardList`
entry left untouched), else append to both structures. -/
def setCore (h : FitsHeader) (key : String) (value : Option FitsValue)
    (comment : Option String) : FitsHeader :=
  match h.mapFind key with
  | some _ =>
    { h with cards := h.cards.map (fun p =>
        if p.1 = key then
          (p.1, { value := value,
                  comment := match comment with
                             | some c => some c
                             | none => p.2.comment })
        else p) }
  | none =>
    { cardList := h.cardList ++ [⟨key, value, comment⟩]
      cards := h.cards ++ [(key, ⟨value, comment⟩)] }

/-- `set(key, value, comment?)`: throws `FitsError` for COMMENT/HISTORY. -/
def set (h : FitsHeader) (key : String) (value : Option FitsValue)
    (comment : Option String) : Except FitsError FitsHeader :=
  if key = "COMMENT" || key = "HISTORY" then
    .error ⟨s!"Use addComment/addHistory to add {key} cards."⟩
  else
    .ok (h.setCore key value comment)

/-- `addComment(text)`: push `{ key: 'COMMENT', comment: text }` onto the
card list (the map is untouched). -/
def addComment (h : FitsHeader) (text : String) : FitsHeader :=
  { h with cardList := h.cardList ++ [⟨"COMMENT", none, some text⟩] }

/-- `addHistory(text)`. -/
def addHistory (h : FitsHeader) (text : String) : FitsHeader :=
  { h with cardList := h.cardList ++ [⟨"HISTORY", none, some text⟩] }

/-- `remove(key)`: no-op when the map has no such key, else delete from the
map and filter every entry with that key out of the card list. -/
def remove (h : FitsHeader) (key : String) : FitsHeader :=
  match h.mapFind key with
  | none => h
  | some _ =>
    { cardList := h.cardList.filter (fun c => c.key ≠ key)
      cards := h.cards.filter (fun p => p.1 ≠ key) }

/-- `keys()`: the card list keys in order. -/
def keys (h : FitsHeader) : List String :=
  h.cardList.map (·.key)

/-- `Number.prototype.toExponential(6)`, reached only for non-integral
numbers. The IEEE-754 rendering is outside this embedding, so the symbolic
numeral text stands for itself; no theorem below depends on this branch. -/
def floatToExponential6 (s : String) : String := s

/-- The 20-column value field of a non-comment card (the `valueStr` of
`formatCard`). -/
def formatCardValueField : Option FitsValue → List Char
  | some (.vint n) => (jsPadStart (jsTake (jsIntToString n) 20) 20).data
  | some (.vfloat s) => (jsPadStart (jsTake (floatToExponential6 s) 20) 20).data
  | some .vnan => (jsPadStart (jsTake "NaN" 20) 20).data
  | some (.vbool b) => (jsPadStart (if b then "T" else "F") 20).data
  | some (.vstr s) =>
    let strVal := escapeQuotes s
    let strVal := if strVal.data.length > 68 then jsTake strVal 68 else strVal
    (jsPadEnd ("'" ++ strVal ++ "'") 20).data
  | none => (jsPadEnd "" 20).data

/-- `formatCard(key, value?, comment?)` from `fitsHeader.ts`. -/
def formatCard (key : String) (value : Option FitsValue)
    (comment : Option String) : String :=
  let card := jsPadEnd key 8
  if key = "END" then
    card ++ ⟨List.replicate 72 ' '⟩
  else if key = "COMMENT" || key = "HISTORY" then
    let text := comment.getD ""
    let content := if text.data.length > 72 then jsTake text 72 else text
    jsPadEnd (card ++ " " ++ content) 80
  else
    let card := card ++ "= "
    let valueStr : String := ⟨formatCardValueField value⟩
    let commentStr :=
      match comment with
      | some c => if c ≠ "" then " / " ++ c else ""
      | none => ""
    let record := card ++ valueStr ++ commentStr
    if record.data.length ≤ 80 then jsPadEnd record 80 else jsTake record 80

/-- A blank 80-character padding record. -/
def blankRecord : String := ⟨List.replicate 80 ' '⟩

/-- `toRecords()`: one record per stored card, an `END` record unless the
last record already starts with `END`, then blank records until the count is
a multiple of 36. -/
def toRecords (h : FitsHeader) : List String :=
  let records := h.cardList.map (fun c => formatCard c.key c.value c.comment)
  let records :=
    match records.getLast? with
    | none => records ++ [formatCard "END" none none]
    | some last =>
      if jsStartsWith last "END" then records
      else records ++ [formatCard "END" none none]
  records ++ List.replicate ((36 - records.length % 36) % 36) blankRecord

end FitsHeader

/-! ## Numeric coercions (`fits.ts` reads header values as JS numbers) -/

/-- JS `ToNumber` on a string, integral fragment: whitespace-only text is 0,
a signed decimal numeral is its value; every other coercion (fractions,
exponents, hex, garbage → `NaN`) is outside the integer model and mapped to
`none`. -/
def jsStrToNumberInt (s : String) : Option Int :=
  let t := (s.data.dropWhile isJsSpace).reverse.dropWhile isJsSpace |>.reverse
  if t.isEmpty then some 0
  else
    let sign : Int := if t.head? = some '-' then -1 else 1
    let t := if t.head? = some '-' || t.head? = some '+' then t.tail else t
    if !t.isEmpty && t.all isDigitChar then some (sign * (digitsToNat t : Int))
    else none

/-- JS `ToNumber` on a stored header value, integral fragment (`none` covers
`NaN` and the non-integral coercions this model does not represent). -/
def jsToNumberInt : FitsValue → Option Int
  | .vint n => some n
  | .vbool b => some (if b then 1 else 0)
  | .vnan => none
  | .vfloat _ => none
  | .vstr s => jsStrToNumberInt s

/-- `header.get(k) ?? d`, then coerced to a number. -/
def numOrDefault (v : Option FitsValue) (d : Int) : Option Int :=
  match v with
  | none => some d
  | some x => jsToNumberInt x

/-! ## HDU and container -/

/-- Decoded/attached HDU data, kept at the raw-byte level. The element-level
codecs (big-endian word grouping, IEEE floats, `BZERO`/`BSCALE` scaling,
binary-table cells) are floating-point and are exercised by no claim. -/
inductive HDUData where
  | raw (bytes : List Char)
deriving DecidableEq, Repr

/-- `FitsHDU` from `fitsHDU.ts`. -/
structure FitsHDU where
  header : FitsHeader := FitsHeader.empty
  data : Option HDUData := none
  isPrimary : Bool := false
  extType : Option String := none
deriving DecidableEq, Repr

/-- The container (`Fits.hdus`). -/
structure Fits where
  hdus : List FitsHDU
deriving DecidableEq, Repr

/-- `getShape()` from `fitsHDU.ts`: `[TFIELDS, NAXIS2]` for table extensions
when both are present (else empty); otherwise the values of
`NAXIS1..NAXISk` (`k = NAXIS`, default 0), skipping absent axes. The shape
entries are the raw stored header values, exactly as the source returns
them. -/
def FitsHDU.getShape (hdu : FitsHDU) : List FitsValue :=
  if hdu.extType = some "BINTABLE" || hdu.extType = some "TABLE" then
    match hdu.header.get "NAXIS2", hdu.header.get "TFIELDS" with
    | some nRows, some nCols => [nCols, nRows]
    | _, _ => []
  else
    let naxis : Nat :=
      match hdu.header.get "NAXIS" with
      | none => 0
      | some v => ((jsToNumberInt v).getD 0).toNat
    (List.range' 1 naxis).foldr
      (fun i acc =>
        match hdu.header.get (s!"NAXIS{i}") with
        | some v => v :: acc
        | none => acc) []

/-- The `EXTEND = true` injection `addHDU` performs on the primary HDU
(`this.primary.header.set('EXTEND', true, 'File has extensions')`). -/
def primaryWithExtend (p : FitsHDU) : FitsHDU :=
  { p with header :=
      p.header.setCore "EXTEND" (some (.vbool true)) (some "File has extensions") }

/-- `addHDU(hdu)` from `fits.ts`: fails when no primary HDU exists; when
exactly one HDU exists, injects `EXTEND = true` into the primary header
before appending. -/
def Fits.addHDU (f : Fits) (hdu : FitsHDU) : Except FitsError Fits :=
  match f.hdus with
  | [] => .error ⟨"Primary HDU is not defined. Cannot add extension."⟩
  | [p] => .ok ⟨[primaryWithExtend p, hdu]⟩
  | p :: rest => .ok ⟨p :: rest ++ [hdu]⟩

/-! ## Decoding (`Fits.fromArrayBuffer` and helpers) -/

/-- Tail-recursive list length (the byte count of a buffer;
definitionally equal to `List.length`, see `bufLen_eq`, but reducible by
the kernel on kilobyte-sized concrete buffers). -/
def listLenAux : List Char → Nat → Nat
  | [], acc => acc
  | _ :: l, acc => listLenAux l acc.succ

/-- `buffer.byteLength`. -/
def bufLen (buf : List Char) : Nat := listLenAux buf 0

/-- `readCard`: 80 bytes from the stream as characters; throws when the
stream ends inside the card. -/
def readCard (buf : List Char) (offset : Nat) : Except FitsError (String × Nat) :=
  if offset + 80 ≤ bufLen buf then
    .ok (⟨(buf.drop offset).take 80⟩, offset + 80)
  else .error ⟨"Unexpected end of file while reading header."⟩

/-- `readHeaderCards` loop body; the fuel only bounds the loop (each
iteration consumes 80 bytes, so `bufLen buf / 80 + 1` can never be
exhausted before `readCard` fails). -/
def readHeaderCardsAux (buf : List Char) :
    Nat → Nat → List String → Except FitsError (List String)
  | 0, _, _ => .error ⟨"model: header scan fuel exhausted"⟩
  | fuel + 1, offset, acc =>
    match readCard buf offset with
    | .error e => .error e
    | .ok (card, newOffset) =>
      if jsStartsWith (jsTrim card) "END" then .ok acc.reverse
      else
        let key := jsTrim (jsTake card 8)
        let valuePart := jsTrim (jsDrop card 8)
        if (key = "COMMENT" || key = "HISTORY") && valuePart = "" then
          readHeaderCardsAux buf fuel newOffset acc
        else
          readHeaderCardsAux buf fuel newOffset (card :: acc)

/-- `readHeaderCards`: read cards until an `END` card, skipping blank
COMMENT/HISTORY cards. -/
def readHeaderCards (buf : List Char) (offset : Nat) : Except FitsError (List String) :=
  readHeaderCardsAux buf (bufLen buf / 80 + 1) offset []

/-- `parseCard`: split an 80-character card into key, value text and
comment. -/
def parseCard (card : String) : String × String × Option String :=
  let key := jsTrim (jsTake card 8)
  let rawValue := jsTrimEnd (jsDrop card 8)
  if key = "COMMENT" || key = "HISTORY" then
    (key, rawValue, some rawValue)
  else
    match jsIndexOfChar card '=' with
    | some eqPos =>
      let vac := jsTrim (jsDrop card (eqPos + 1))
      match jsIndexOfChar vac '/' with
      | some slashIdx =>
        (key, jsTrim (jsTake vac slashIdx), some (jsTrim (jsDrop vac (slashIdx + 1))))
      | none => (key, jsTrim vac, none)
    | none => (key, jsTrim rawValue, none)

/-- `parseValue`: interpret a card's value text. -/
def parseValue (s : String) : Option FitsValue :=
  if s = "" then none
  else if jsStartsWith s "'" then
    let strVal :=
      match jsLastIndexOfChar s '\'' with
      | some i => if 0 < i then jsSlice s 1 i else jsDrop s 1
      | none => jsDrop s 1
    some (.vstr (unescapeQuotes strVal))
  else if s = "T" || s = "F" then some (.vbool (s = "T"))
  else
    let numStr := replaceFirstD s
    if hasFloatMark numStr then some (.vfloat numStr)
    else
      match jsParseInt numStr with
      | some n => some (.vint n)
      | none => some .vnan

/-- `value.replace(/'/g, '')` used on the XTENSION value. -/
def removeQuotes (s : String) : String := ⟨s.data.filter (· ≠ '\'')⟩

/-- JS template interpolation `${value}` for the non-string XTENSION case
(the string case is handled by the caller before reaching this). -/
def jsTemplString : Option FitsValue → String
  | some (.vstr s) => s
  | some (.vint n) => jsIntToString n
  | some (.vbool b) => if b then "true" else "false"
  | some (.vfloat s) => s
  | some .vnan => "NaN"
  | none => "undefined"

/-- One card of the `buildHeaderFromCards` fold. COMMENT/HISTORY cards go
through `addComment`/`addHistory`; other cards go through `set`, which in
this branch (key ≠ COMMENT/HISTORY) is exactly `setCore` and cannot
throw. -/
def buildStep (acc : FitsHeader × Option String) (card : String) :
    FitsHeader × Option String :=
  let (header, extType) := acc
  let (key, valueStr, comment) := parseCard card
  if key = "" then (header, extType)
  else if key = "COMMENT" then (header.addComment (comment.getD ""), extType)
  else if key = "HISTORY" then (header.addHistory (comment.getD ""), extType)
  else
    let value := parseValue valueStr
    let header := header.setCore key value comment
    let extType :=
      if key = "XTENSION" then
        some (match value with
              | some (.vstr s) => removeQuotes s
              | v => jsTemplString v)
      else extType
    (header, extType)

/-- `buildHeaderFromCards`: fold the parsed cards into a fresh header. -/
def buildHeaderFromCards (cards : List String) : FitsHeader × Option String :=
  cards.foldl buildStep (FitsHeader.empty, none)

/-- One step of the per-axis product loop:
`naxisProduct *= header.get('NAXIS' + i) ?? 1`, with `none` the absorbing
`NaN`. -/
def axisStep (h : FitsHeader) (acc : Option Int) (i : Nat) : Option Int :=
  match acc, numOrDefault (h.get (s!"NAXIS{i}")) 1 with
  | some a, some v => some (a * v)
  | _, _ => none

/-- The per-axis product `NAXIS1 * ... * NAXISn` with absent axes defaulting
to 1. -/
def axisProduct (h : FitsHeader) (n : Nat) : Option Int :=
  (List.range' 1 n).foldl (axisStep h) (some 1)

/-- The data-length computation of `parseHeader`:
`|BITPIX| * GCOUNT * (PCOUNT + product(NAXISi)) / 8` when `NAXIS > 0`, else
0. `none` covers the JS `NaN` outcomes (absent/non-numeric `BITPIX`, `NaN`
components) and a non-integral division, which the integer model does not
represent. -/
def computeDataBytes (h : FitsHeader) : Option Int :=
  match numOrDefault (h.get "NAXIS") 0 with
  | none => some 0
  | some nx =>
    if nx > 0 then
      let bitpixNum := match h.get "BITPIX" with
                       | none => none
                       | some v => jsToNumberInt v
      match bitpixNum, numOrDefault (h.get "PCOUNT") 0,
            numOrDefault (h.get "GCOUNT") 1, axisProduct h nx.toNat with
      | some b, some p, some g, some prod =>
        let totalBits := (b.natAbs : Int) * g * (p + prod)
        if (8 : Int) ∣ totalBits then some (totalBits / 8) else none
      | _, _, _, _ => none
    else some 0

/-- The result of `parseHeader`. -/
structure ParsedHeader where
  header : FitsHeader
  headerBytes : Nat
  dataBytes : Option Int
  extType : Option String
deriving DecidableEq, Repr

/-- `parseHeader(dataView, startOffset)`: read the cards, compute the header
byte length `ceil(cardCount/36) * 2880`, build the header, validate
SIMPLE/XTENSION, inject `EXTEND = true` into extension headers, and compute
the data byte length. -/
def parseHeaderAt (buf : List Char) (startOffset : Nat) :
    Except FitsError ParsedHeader :=
  match readHeaderCards buf startOffset with
  | .error e => .error e
  | .ok cards =>
    let headerBytes := ((cards.length + 35) / 36) * 2880
    let (header, extType) := buildHeaderFromCards cards
    let firstKey := header.keys.head?
    if startOffset = 0 && firstKey ≠ some "SIMPLE" then
      .error ⟨"Invalid FITS file: primary HDU missing SIMPLE keyword."⟩
    else if startOffset ≠ 0 && firstKey ≠ some "XTENSION" then
      .error ⟨"Invalid FITS file: extension HDU missing XTENSION keyword."⟩
    else
      let header :=
        if startOffset ≠ 0 then header.setCore "EXTEND" (some (.vbool true)) none
        else header
      .ok ⟨header, headerBytes, computeDataBytes header, extType⟩

/-- `readTypedArray`, kept at the raw-byte level: the supported-`BITPIX`
check is the source's dispatch-table lookup; reading past the buffer is the
JS `DataView` `RangeError`. -/
def readTypedArray (buf : List Char) (offset : Nat) (dataBytes : Nat)
    (bitpix : Option FitsValue) : Except FitsError HDUData :=
  let supported :=
    match bitpix with
    | some (.vint n) => n = 8 || n = 16 || n = 32 || n = -32 || n = -64
    | _ => false
  if supported then
    if offset + dataBytes ≤ bufLen buf then
      .ok (.raw ((buf.drop offset).take dataBytes))
    else .error ⟨"model: data read out of range"⟩
  else .error ⟨"Unsupported BITPIX in data unit."⟩

/-- `readBinaryTable`, kept at the raw-byte level (cell decoding and the
TFORM error behaviour are exercised by no claim). -/
def readBinaryTable (buf : List Char) (offset : Nat) (dataBytes : Nat) :
    Except FitsError HDUData :=
  if offset + dataBytes ≤ bufLen buf then
    .ok (.raw ((buf.drop offset).take dataBytes))
  else .error ⟨"model: data read out of range"⟩

/-- `Math.ceil(d / 2880) * 2880` on an integer. -/
def dataBlockSize (d : Int) : Int := ((d + 2879).fdiv 2880) * 2880

/-- The `fromArrayBuffer` while-loop. The fuel only bounds the loop: every
successful iteration advances the offset by at least 2880 bytes (a parsed
header has at least one card), so the caller's fuel is never exhausted on a
terminating run; a `none` (`NaN`) data length ends the loop exactly as the
source's `offset += NaN` does. -/
def parseHDUsAux (buf : List Char) :
    Nat → Nat → Bool → List FitsHDU → Except FitsError (List FitsHDU)
  | 0, _, _, _ => .error ⟨"model: HDU loop fuel exhausted"⟩
  | fuel + 1, offset, isPrimary, acc =>
    if offset < bufLen buf then
      match parseHeaderAt buf offset with
      | .error e => .error e
      | .ok r =>
        let hdu : FitsHDU :=
          { header := r.header, isPrimary := isPrimary, extType := r.extType }
        let offset := offset + r.headerBytes
        match r.dataBytes with
        | none => .ok (acc ++ [hdu])
        | some d =>
          let readData : Except FitsError (Option HDUData) :=
            if d > 0 then
              if r.extType = some "BINTABLE" || r.extType = some "TABLE" then
                (readBinaryTable buf offset d.toNat).map some
              else
                (readTypedArray buf offset d.toNat (r.header.get "BITPIX")).map some
            else .ok none
          match readData with
          | .error e => .error e
          | .ok dataOpt =>
            let hdu := { hdu with data := dataOpt }
            let block := dataBlockSize d
            if block < 0 then .error ⟨"model: negative data block"⟩
            else parseHDUsAux buf fuel (offset + block.toNat) false (acc ++ [hdu])
    else .ok acc

/-- `Fits.fromArrayBuffer(buffer)`. -/
def Fits.fromArrayBuffer (buf : List Char) : Except FitsError Fits :=
  (parseHDUsAux buf (bufLen buf / 2880 + 1) 0 true []).map Fits.mk

/-! ## Encoding (`Fits.toArrayBuffer`) -/

/-- One 80-byte header record as emitted by `writeHeaderRecords`:
`charCodeAt(j)` for `j < 80`, positions beyond the record's length reading
as `NaN`, which `setUint8` stores as 0. -/
def writeRecord80 (r : String) : List Char :=
  r.data.take 80 ++ List.replicate (80 - r.data.length) (Char.ofNat 0)

/-- `toArrayBuffer()`. The source first runs an adjustment pass touching
only HDUs that carry data with `NAXIS ≥ 1` (data is raw bytes in this
model, so the element-count arithmetic of that pass is not represented — no
claim quantifies over data-carrying containers), then writes every HDU's
header records consecutively, then every HDU's data block (scaling and
element re-encoding elided for the raw representation) padded with zero
bytes to a 2880-byte boundary. -/
def Fits.toArrayBuffer (f : Fits) : List Char :=
  let headerBlocks := f.hdus.map (fun hdu => (hdu.header.toRecords).flatMap writeRecord80)
  let dataBlocks := f.hdus.map (fun hdu =>
    match hdu.data with
    | none => ([] : List Char)
    | some (.raw bytes) =>
      bytes ++ List.replicate ((2880 - bytes.length % 2880) % 2880) (Char.ofNat 0))
  headerBlocks.flatten ++ dataBlocks.flatten

/-- The encoded header block of one HDU (its records, 80 bytes each). -/
def headerBlock (h : FitsHeader) : List Char :=
  (h.toRecords).flatMap writeRecord80

/-! ## Well-formed containers (for the round-trip statement)

The encoder/decoder pair does not round-trip arbitrary containers (see the
C1 counterexample); the following predicates carve out the class of
containers for which it does: data-less HDUs whose headers hold uniquely
keyed, plain-ASCII cards with in-sync map and card list, value texts that
survive the card grammar (no `/` in strings, integral numbers in the
JS-exact range, no floats), a card count that is not a multiple of 36 (the
header-length arithmetic of `parseHeader` counts cards without `END`, the
encoder with it), `NAXIS` absent or 0 (no data block), and the
SIMPLE/XTENSION/EXTEND structure the decoder validates and injects. -/

/-- The trimmed value text a well-formed stored value renders to inside the
20-column field (used to relate `formatCard` and `parseValue`). -/
def valueTextChars : Option FitsValue → List Char
  | none => []
  | some (.vbool b) => [if b then 'T' else 'F']
  | some (.vint n) => (jsIntToString n).data
  | some (.vstr s) => '\'' :: (escapeQuotes s).data ++ ['\'']
  | some (.vfloat _) => []
  | some .vnan => []

/-- Characters allowed in a well-formed keyword. -/
def goodKeyChar (c : Char) : Bool :=
  ('A' ≤ c && c ≤ 'Z') || ('0' ≤ c && c ≤ '9') || c = '-' || c = '_'

/-- A well-formed keyword: nonempty, at most 8 allowed characters, not a
COMMENT/HISTORY pseudo-key, and not starting with `END` (such a record
would stop the card scan). -/
def goodKey (k : String) : Bool :=
  !k.data.isEmpty && k.data.length ≤ 8 && k.data.all goodKeyChar &&
  k ≠ "COMMENT" && k ≠ "HISTORY" && !jsStartsWith k "END"

/-- Printable ASCII except `/` (a slash inside a string value is cut off at
the first `/` by `parseCard` — the C1 counterexample). -/
def goodStrChar (c : Char) : Bool :=
  32 ≤ c.toNat && c.toNat ≤ 126 && c ≠ '/'

/-- Printable ASCII (comment text only has to survive as bytes). -/
def goodCommentChar (c : Char) : Bool :=
  32 ≤ c.toNat && c.toNat ≤ 126

/-- A well-formed stored value: absent, boolean, an exact JS integer, or a
string whose quote-escaped form fits the 68-character field and contains no
slash; floats and `NaN` are excluded (their rendering is IEEE-754
specific). -/
def goodValue : Option FitsValue → Bool
  | none => true
  | some (.vbool _) => true
  | some (.vint n) => n.natAbs < 2 ^ 53
  | some (.vstr s) => s.data.all goodStrChar && (escapeQuotes s).data.length ≤ 68
  | some (.vfloat _) => false
  | some .vnan => false

/-- A well-formed comment: printable ASCII, short enough that the record
fits in 80 columns (longer comments are truncated by `formatCard`, which
does not affect keys or values but is not modelled in the round-trip). -/
def goodComment (v : Option FitsValue) : Option String → Bool
  | none => true
  | some c =>
    c.data.all goodCommentChar &&
    10 + (FitsHeader.formatCardValueField v).length + 3 + c.data.length ≤ 80

/-- A well-formed card. -/
def goodCard (c : Card) : Bool :=
  goodKey c.key && goodValue c.value && goodComment c.value c.comment

/-- The card map is exactly the index of the card list (the state reachable
by fresh `set` calls; an in-place update desynchronises the two — the
stale-value behaviour — and is excluded here). -/
def syncedHeader (h : FitsHeader) : Prop :=
  h.cards = h.cardList.map (fun c => (c.key, ⟨c.value, c.comment⟩))

/-- A well-formed header. -/
def wfHeader (h : FitsHeader) : Prop :=
  syncedHeader h ∧ h.keys.Nodup ∧ (∀ c ∈ h.cardList, goodCard c = true) ∧
  h.cardList.length % 36 ≠ 0

/-- `NAXIS` absent or 0: the HDU carries no data block. -/
def shapeZero (h : FitsHeader) : Prop :=
  h.get "NAXIS" = none ∨ h.get "NAXIS" = some (.vint 0)

/-- A well-formed primary HDU: no data, well-formed header starting with
SIMPLE, no XTENSION card, and no extension tag. -/
def wfPrimaryHDU (hdu : FitsHDU) : Prop :=
  hdu.data = none ∧ wfHeader hdu.header ∧ shapeZero hdu.header ∧
  hdu.header.keys.head? = some "SIMPLE" ∧
  hdu.header.mapFind "XTENSION" = none ∧ hdu.extType = none

/-- A well-formed extension HDU: no data, well-formed header starting with
XTENSION whose quote-free string value matches the HDU's extension tag, and
an `EXTEND = true` card already present (the decoder injects one). -/
def wfExtHDU (hdu : FitsHDU) : Prop :=
  hdu.data = none ∧ wfHeader hdu.header ∧ shapeZero hdu.header ∧
  hdu.header.keys.head? = some "XTENSION" ∧
  (∃ s, hdu.header.get "XTENSION" = some (.vstr s) ∧
    s.data.all (· ≠ '\'') = true ∧ hdu.extType = some s) ∧
  hdu.header.get "EXTEND" = some (.vbool true)

/-- A well-formed container: a well-formed primary followed by well-formed
extensions (or empty). -/
def wfContainer (f : Fits) : Prop :=
  match f.hdus with
  | [] => True
  | p :: rest => wfPrimaryHDU p ∧ ∀ e ∈ rest, wfExtHDU e

/-! ## Concrete example inputs -/

/-- Decidable equality for decode/encode results. -/
instance {ε α : Type} [DecidableEq ε] [DecidableEq α] : DecidableEq (Except ε α) := fun a b =>
  match a, b with
  | .ok x, .ok y => if h : x = y then .isTrue (by rw [h]) else .isFalse (by simpa using h)
  | .error x, .error y => if h : x = y then .isTrue (by rw [h]) else .isFalse (by simpa using h)
  | .ok _, .error _ => .isFalse (by simp)
  | .error _, .ok _ => .isFalse (by simp)

/-- Pad a byte block with blank characters to a 2880-byte boundary (the way
the repository's tests lay out hand-written header buffers). -/
def blockPad (bytes : List Char) : List Char :=
  bytes ++ List.replicate ((2880 - bytes.length % 2880) % 2880) ' '

/-- Lay out hand-written cards as an on-disk header block: each card padded
to 80 characters, the whole padded to a 2880-byte block. -/
def cardsToBuf (cards : List String) : List Char :=
  blockPad ((cards.map (fun c => jsPadEnd c 80)).foldr (fun r acc => r.data ++ acc) [])

/-- A 100×100 16-bit image header block (the layout used by the
repository's own minimal-header test). -/
def minimalImageBuf : List Char := cardsToBuf [
  "SIMPLE  =                    T / file conforms to FITS standard",
  "BITPIX  =                   16 / bits per data value",
  "NAXIS   =                    2 / number of data axes",
  "NAXIS1  =                  100 / length of data axis 1",
  "NAXIS2  =                  100 / length of data axis 2",
  "END"]

/-- The same header block without the SIMPLE card. -/
def noSimpleBuf : List Char := cardsToBuf [
  "BITPIX  =                   16 / bits per data value",
  "NAXIS   =                    2 / number of data axes",
  "END"]

/-- One card followed by a well-formed extension header starting at byte
offset 80 (`parseHeaderAt` itself places no block-alignment requirement on
the offset it is given). -/
def smallExtBuf : List Char :=
  (jsPadEnd "SIMPLE  =                    T" 80).data ++
  (jsPadEnd "XTENSION= 'IMAGE   '" 80).data ++
  (jsPadEnd "END" 80).data

/-- One card followed, at offset 80, by a header whose first key is BITPIX
rather than XTENSION. -/
def smallBadExtBuf : List Char :=
  (jsPadEnd "SIMPLE  =                    T" 80).data ++
  (jsPadEnd "BITPIX  =                    8" 80).data ++
  (jsPadEnd "END" 80).data

/-- A container whose primary header stores a string value containing `/`:
`toArrayBuffer` renders it as `OBJECT  = 'A/B'...`, and `parseCard` then
splits the record at the first `/`, so decoding yields the value `"A"`. -/
def slashContainer : Fits :=
  ⟨[{ header := (FitsHeader.empty.setCore "SIMPLE" (some (.vbool true)) none).setCore
        "OBJECT" (some (.vstr "A/B")) none,
      isPrimary := true }]⟩

/-- A one-card well-formed primary-only container (`SIMPLE = T`). -/
def simpleContainer : Fits :=
  ⟨[⟨⟨[⟨"SIMPLE", some (.vbool true), none⟩],
      [("SIMPLE", ⟨some (.vbool true), none⟩)]⟩, none, true, none⟩]⟩

/-! ## Shared lemmas -/

theorem listLenAux_eq (l : List Char) : ∀ acc, listLenAux l acc = l.length + acc := by
  induction l with
  | nil => intro acc; simp [listLenAux]
  | cons c l ih =>
    intro acc
    simp only [listLenAux, ih, List.length_cons, Nat.succ_eq_add_one]
    omega

@[simp] theorem bufLen_eq (l : List Char) : bufLen l = l.length := by
  simp [bufLen, listLenAux_eq]

namespace FitsHeader

/-- `find?` over the in-place update that `setCore` performs on an existing
key: the first hit is the updated first hit. -/
theorem find?_setCore_map (l : List (String × MapCard)) (k : String)
    (v : Option FitsValue) (c : Option String) :
    (l.map (fun p =>
        if p.1 = k then
          (p.1, ⟨v, match c with | some cc => some cc | none => p.2.comment⟩)
        else p)).find? (fun p => p.1 = k)
      = (l.find? (fun p => p.1 = k)).map (fun p =>
          (p.1, (⟨v, match c with | some cc => some cc | none => p.2.comment⟩ : MapCard))) := by
  induction l with
  | nil => simp
  | cons a l ih =>
    by_cases hk : a.1 = k
    · simp [hk]
    · simp [hk, ih]

/-- Keys are unchanged by the in-place update branch of `setCore`. -/
theorem keys_setCore_of_mem (h : FitsHeader) (k : String) (v : Option FitsValue)
    (c : Option String) (hmem : h.mapFind k ≠ none) :
    (h.setCore k v c).keys = h.keys := by
  unfold setCore
  cases hfind : h.mapFind k with
  | none => exact absurd hfind hmem
  | some mc => simp [keys]

/-- Keys gain the new key at the end in the append branch of `setCore`. -/
theorem keys_setCore_of_not_mem (h : FitsHeader) (k : String) (v : Option FitsValue)
    (c : Option String) (hnone : h.mapFind k = none) :
    (h.setCore k v c).keys = h.keys ++ [k] := by
  unfold setCore
  rw [hnone]
  simp [keys]

/-- `get` after `setCore` returns the new value. -/
theorem get_setCore_self (h : FitsHeader) (k : String) (v : Option FitsValue)
    (c : Option String) :
    (h.setCore k v c).get k = v := by
  unfold setCore
  cases hfind : h.mapFind k with
  | some mc =>
    unfold get mapFind
    simp only [find?_setCore_map]
    unfold mapFind at hfind
    cases hf : h.cards.find? (fun p => p.1 = k) with
    | none => rw [hf] at hfind; simp at hfind
    | some p => simp
  | none =>
    unfold get mapFind
    unfold mapFind at hfind
    have hf : h.cards.find? (fun p => p.1 = k) = none := by
      cases hf : h.cards.find? (fun p => p.1 = k) with
      | none => rfl
      | some p => rw [hf] at hfind; simp at hfind
    rw [List.find?_append, hf]
    simp

/-- `find?` never hits a key that was filtered out. -/
theorem find?_filter_ne (l : List (String × MapCard)) (k : String) :
    (l.filter (fun p => p.1 ≠ k)).find? (fun p => p.1 = k) = none := by
  induction l with
  | nil => simp
  | cons a l ih =>
    by_cases hk : a.1 = k
    · simp [hk, ih]
    · simp [hk, ih]

/-- Filtering cards by key commutes with taking keys. -/
theorem map_key_filter (l : List Card) (k : String) :
    (l.filter (fun c => c.key ≠ k)).map (·.key) = (l.map (·.key)).filter (· ≠ k) := by
  induction l with
  | nil => simp
  | cons a l ih =>
    by_cases hk : a.key = k
    · simpa [hk] using ih
    · simpa [hk] using ih

end FitsHeader

/-! ## Toolbox: characters, trimming, indexing -/

theorem isJsSpace_space : isJsSpace ' ' = true := rfl

theorem goodKeyChar_not_space {c : Char} (h : goodKeyChar c = true) :
    isJsSpace c = false := by
  cases hs : isJsSpace c
  · rfl
  · exfalso
    simp only [isJsSpace, Bool.or_eq_true, decide_eq_true_eq] at hs
    rcases hs with ((((h1 | h1) | h1) | h1) | h1) | h1 <;> subst h1 <;> simp [goodKeyChar] at h

theorem goodKeyChar_ne_eq {c : Char} (h : goodKeyChar c = true) : c ≠ '=' := by
  intro he; subst he; simp [goodKeyChar] at h

theorem dropWhile_replicate_space (m : Nat) :
    (List.replicate m ' ').dropWhile isJsSpace = [] := by
  induction m with
  | zero => rfl
  | succ n ih => simp [List.replicate_succ, List.dropWhile_cons, isJsSpace_space, ih]

theorem dropWhile_space_append (m : Nat) (l : List Char) :
    (List.replicate m ' ' ++ l).dropWhile isJsSpace = l.dropWhile isJsSpace := by
  rw [List.dropWhile_append, dropWhile_replicate_space]
  simp

/-- `trimEndL`-style computation: trailing spaces disappear. -/
theorem jsTrimEnd_append_spaces (l : List Char) (m : Nat) :
    jsTrimEnd ⟨l ++ List.replicate m ' '⟩ = jsTrimEnd ⟨l⟩ := by
  simp only [jsTrimEnd, List.reverse_append, List.reverse_replicate]
  rw [dropWhile_space_append]

theorem jsTrimStart_spaces_append (m : Nat) (l : List Char) :
    jsTrimStart ⟨List.replicate m ' ' ++ l⟩ = jsTrimStart ⟨l⟩ := by
  simp only [jsTrimStart]
  rw [dropWhile_space_append]

theorem jsTrimEnd_append (l1 l2 : List Char) :
    jsTrimEnd ⟨l1 ++ l2⟩ =
      if (jsTrimEnd ⟨l2⟩).data = [] then jsTrimEnd ⟨l1⟩
      else ⟨l1 ++ (jsTrimEnd ⟨l2⟩).data⟩ := by
  simp only [jsTrimEnd, List.reverse_append]
  rw [List.dropWhile_append]
  by_cases h2 : (l2.reverse.dropWhile isJsSpace).isEmpty
  · rw [if_pos h2]
    have : (l2.reverse.dropWhile isJsSpace).reverse = [] := by
      rw [List.isEmpty_iff] at h2
      simp [h2]
    rw [if_pos this]
  · rw [if_neg h2]
    have h2' : l2.reverse.dropWhile isJsSpace ≠ [] := by
      simpa [List.isEmpty_iff] using h2
    have hne : (l2.reverse.dropWhile isJsSpace).reverse ≠ [] := by
      simpa [List.reverse_eq_nil_iff] using h2'
    rw [if_neg hne]
    simp

theorem jsTrimStart_cons_of_not_space (c : Char) (l : List Char)
    (h : isJsSpace c = false) : jsTrimStart ⟨c :: l⟩ = ⟨c :: l⟩ := by
  simp [jsTrimStart, List.dropWhile_cons, h]

/-- Trimming a token whose first and last characters are not whitespace is
the identity. -/
theorem jsTrim_of_clean (l : List Char)
    (hh : ∀ c, l.head? = some c → isJsSpace c = false)
    (hl : ∀ c, l.getLast? = some c → isJsSpace c = false) :
    jsTrim ⟨l⟩ = ⟨l⟩ := by
  cases l with
  | nil => rfl
  | cons a t =>
    have ha : isJsSpace a = false := hh a rfl
    unfold jsTrim
    have hend : jsTrimEnd ⟨a :: t⟩ = ⟨a :: t⟩ := by
      unfold jsTrimEnd
      cases hr : (a :: t).reverse with
      | nil => simp at hr
      | cons b rb =>
        have hb : isJsSpace b = false := by
          apply hl
          rw [List.getLast?_eq_head?_reverse, hr]
          rfl
        have hrev : (b :: rb).reverse = a :: t := by
          rw [← hr, List.reverse_reverse]
        rw [List.dropWhile_cons, hb]
        simp only [Bool.false_eq_true, if_false]
        rw [hrev]
    rw [hend]
    exact jsTrimStart_cons_of_not_space a t ha

theorem idxOf?_not_mem {c : Char} {l : List Char} (h : ∀ x ∈ l, x ≠ c) :
    idxOf? c l = none := by
  induction l with
  | nil => rfl
  | cons a t ih =>
    have ha : a ≠ c := h a (by simp)
    simp [idxOf?, ha, ih (fun x hx => h x (by simp [hx]))]

theorem idxOf?_append_right {c : Char} {l1 : List Char} (l2 : List Char)
    (h : ∀ x ∈ l1, x ≠ c) :
    idxOf? c (l1 ++ l2) = (idxOf? c l2).map (· + l1.length) := by
  induction l1 with
  | nil => simp
  | cons a t ih =>
    have ha : a ≠ c := h a (by simp)
    simp only [List.cons_append, idxOf?, ha, if_false, List.append_eq]
    rw [ih (fun x hx => h x (by simp [hx]))]
    cases idxOf? c l2
    · simp
    · simp; omega

theorem idxOf?_cons_self (c : Char) (l : List Char) :
    idxOf? c (c :: l) = some 0 := by
  simp [idxOf?]

/-! ## Decimal numeral facts -/

theorem char_toNat_ofNat {n : Nat} (h : n < 55296) : (Char.ofNat n).toNat = n := by
  have hv : n.isValidChar := Or.inl h
  unfold Char.ofNat
  rw [dif_pos hv]
  rfl

theorem natDigitsRev_chars : ∀ (m : Nat), ∀ c ∈ natDigitsRev m, 48 ≤ c.toNat ∧ c.toNat ≤ 57 := by
  intro m
  induction m using Nat.strong_induction_on with
  | _ m ih =>
    cases m with
    | zero => intro c hc; simp [natDigitsRev] at hc
    | succ n =>
      intro c hc
      rw [natDigitsRev] at hc
      rcases List.mem_cons.mp hc with hc | hc
      · subst hc
        have hlt : (n + 1) % 10 < 10 := Nat.mod_lt _ (by omega)
        constructor
        · show 48 ≤ (Char.ofNat (48 + (n + 1) % 10)).toNat
          rw [char_toNat_ofNat (by omega)]
          omega
        · show (Char.ofNat (48 + (n + 1) % 10)).toNat ≤ 57
          rw [char_toNat_ofNat (by omega)]
          omega
      · exact ih ((n + 1) / 10) (Nat.div_lt_self (Nat.succ_pos n) (by omega)) c hc

theorem natDigitsRev_length_le : ∀ (k m : Nat), m < 10 ^ k → (natDigitsRev m).length ≤ k := by
  intro k
  induction k with
  | zero =>
    intro m h
    have : m = 0 := by simpa using h
    subst this
    simp [natDigitsRev]
  | succ k ih =>
    intro m h
    cases m with
    | zero => simp [natDigitsRev]
    | succ n =>
      rw [natDigitsRev]
      simp only [List.length_cons]
      have hdiv : (n + 1) / 10 < 10 ^ k := by
        rw [Nat.div_lt_iff_lt_mul (by omega)]
        calc n + 1 < 10 ^ (k + 1) := h
        _ = 10 ^ k * 10 := by ring
      have := ih ((n + 1) / 10) hdiv
      omega

theorem natDigitsRev_ne_nil (m : Nat) (h : 0 < m) : natDigitsRev m ≠ [] := by
  cases m with
  | zero => omega
  | succ n => rw [natDigitsRev]; simp

/-- `digitsToNat` over an appended digit. -/
theorem digitsToNat_append_digit (l : List Char) (d : Char) :
    digitsToNat (l ++ [d]) = 10 * digitsToNat l + (d.toNat - 48) := by
  simp only [digitsToNat, List.foldl_append, List.foldl_cons, List.foldl_nil]

/-- Parsing back the little-endian digit rendering. -/
theorem digitsToNat_natDigitsRev : ∀ (m : Nat), digitsToNat (natDigitsRev m).reverse = m := by
  intro m
  induction m using Nat.strong_induction_on with
  | _ m ih =>
    cases m with
    | zero => simp [natDigitsRev, digitsToNat]
    | succ n =>
      rw [natDigitsRev]
      simp only [List.reverse_cons]
      rw [digitsToNat_append_digit]
      rw [ih ((n + 1) / 10) (Nat.div_lt_self (Nat.succ_pos n) (by omega))]
      have hlt : (n + 1) % 10 < 10 := Nat.mod_lt _ (by omega)
      rw [char_toNat_ofNat (by omega)]
      omega

theorem jsNatToString_chars (m : Nat) :
    ∀ c ∈ (jsNatToString m).data, 48 ≤ c.toNat ∧ c.toNat ≤ 57 := by
  intro c hc
  by_cases hm : m = 0
  · subst hm
    simp only [jsNatToString, if_pos rfl] at hc
    have : c = '0' := by
      cases hc with
      | head => rfl
      | tail _ h => cases h
    subst this
    constructor <;> decide
  · simp only [jsNatToString, if_neg hm] at hc
    exact natDigitsRev_chars m c (List.mem_reverse.mp hc)

theorem char_digit_not_space {c : Char} (h : 48 ≤ c.toNat ∧ c.toNat ≤ 57) :
    isJsSpace c = false := by
  cases hs : isJsSpace c
  · rfl
  · exfalso
    simp only [isJsSpace, Bool.or_eq_true, decide_eq_true_eq] at hs
    rcases hs with ((((h1 | h1) | h1) | h1) | h1) | h1 <;> subst h1 <;> revert h <;> decide

theorem char_le_of_toNat_le {a b : Char} (h : a.toNat ≤ b.toNat) : a ≤ b := by
  rw [Char.le_def, UInt32.le_def, BitVec.le_def]
  exact h

theorem char_digit_isDigitChar {c : Char} (h : 48 ≤ c.toNat ∧ c.toNat ≤ 57) :
    isDigitChar c = true := by
  simp only [isDigitChar, Bool.and_eq_true, decide_eq_true_eq]
  exact ⟨char_le_of_toNat_le h.1, char_le_of_toNat_le h.2⟩

theorem takeWhile_all (p : Char → Bool) :
    ∀ l : List Char, (∀ c ∈ l, p c = true) → l.takeWhile p = l := by
  intro l h
  induction l with
  | nil => rfl
  | cons a t ih =>
    rw [List.takeWhile_cons, h a (by simp)]
    simp only [if_true]
    rw [ih (fun c hc => h c (by simp [hc]))]

theorem dropWhile_all_keep (p : Char → Bool) :
    ∀ l : List Char, (∀ c ∈ l, p c = false) → l.dropWhile p = l := by
  intro l h
  cases l with
  | nil => rfl
  | cons a t => rw [List.dropWhile_cons, h a (by simp)]; simp

/-- `jsParseInt` on a pure digit string parses the digit value. -/
theorem jsParseInt_digits (s : String) (hne : s.data ≠ [])
    (hchars : ∀ c ∈ s.data, 48 ≤ c.toNat ∧ c.toNat ≤ 57) :
    jsParseInt s = some (digitsToNat s.data : Int) := by
  unfold jsParseInt
  have hnospace : s.data.dropWhile isJsSpace = s.data :=
    dropWhile_all_keep _ _ (fun c hc => char_digit_not_space (hchars c hc))
  rw [hnospace]
  cases hd : s.data with
  | nil => exact absurd hd hne
  | cons a t =>
    have ha := hchars a (by rw [hd]; simp)
    have ha1 : a ≠ '-' := by intro e; subst e; revert ha; decide
    have ha2 : a ≠ '+' := by intro e; subst e; revert ha; decide
    have e1 : ((a :: t).head? = some '-') = False := by simp [ha1]
    have e2 : ((a :: t).head? = some '+') = False := by simp [ha2]
    have ht : (a :: t).takeWhile isDigitChar = a :: t :=
      takeWhile_all isDigitChar (a :: t)
        (fun c hc => char_digit_isDigitChar (hchars c (by rw [hd]; exact hc)))
    simp [e1, e2, ht, ha1, ha2, char_digit_isDigitChar ha]

/-- `jsParseInt` on a minus sign followed by digits. -/
theorem jsParseInt_neg_digits (s : String) (d : List Char)
    (hd : s.data = '-' :: d) (hne : d ≠ [])
    (hchars : ∀ c ∈ d, 48 ≤ c.toNat ∧ c.toNat ≤ 57) :
    jsParseInt s = some (-(digitsToNat d : Int)) := by
  unfold jsParseInt
  rw [hd]
  have hnospace : ('-' :: d).dropWhile isJsSpace = '-' :: d := by
    rw [List.dropWhile_cons]
    simp [show isJsSpace '-' = false from rfl]
  rw [hnospace]
  have ht : d.takeWhile isDigitChar = d :=
    takeWhile_all isDigitChar d (fun c hc => char_digit_isDigitChar (hchars c hc))
  simp [ht, hne]

theorem digitsToNat_jsNatToString (m : Nat) : digitsToNat (jsNatToString m).data = m := by
  by_cases hm : m = 0
  · subst hm; rfl
  · simp only [jsNatToString, if_neg hm]
    exact digitsToNat_natDigitsRev m

/-- Parsing inverts the integral rendering. -/
theorem jsParseInt_jsIntToString (i : Int) : jsParseInt (jsIntToString i) = some i := by
  by_cases hi : i < 0
  · have hpos : 0 < i.natAbs := by omega
    have hdata : (jsIntToString i).data = '-' :: (jsNatToString i.natAbs).data := by
      simp only [jsIntToString, if_pos hi]
      rw [String.data_append]
      rfl
    have hne : (jsNatToString i.natAbs).data ≠ [] := by
      by_cases h0 : i.natAbs = 0
      · omega
      · simp only [jsNatToString, if_neg h0]
        simpa using natDigitsRev_ne_nil i.natAbs hpos
    rw [jsParseInt_neg_digits _ _ hdata hne (jsNatToString_chars i.natAbs)]
    rw [digitsToNat_jsNatToString]
    congr 1
    omega
  · have hdata : jsIntToString i = jsNatToString i.toNat := by
      simp [jsIntToString, hi]
    rw [hdata]
    have hne : (jsNatToString i.toNat).data ≠ [] := by
      by_cases h0 : i.toNat = 0
      · rw [jsNatToString, if_pos h0]; simp
      · simp only [jsNatToString, if_neg h0]
        simpa using natDigitsRev_ne_nil i.toNat (by omega)
    rw [jsParseInt_digits _ hne (jsNatToString_chars i.toNat)]
    rw [digitsToNat_jsNatToString]
    congr 1
    omega

theorem jsNatToString_length_le (m k : Nat) (hk : 1 ≤ k) (h : m < 10 ^ k) :
    (jsNatToString m).data.length ≤ k := by
  by_cases hm : m = 0
  · subst hm; simpa using hk
  · simp only [jsNatToString, if_neg hm]
    simpa using natDigitsRev_length_le k m h

theorem jsIntToString_length_le (i : Int) (h : i.natAbs < 2 ^ 53) :
    (jsIntToString i).data.length ≤ 17 := by
  have hlt : i.natAbs < 10 ^ 16 := by
    have : (2 : Nat) ^ 53 < 10 ^ 16 := by norm_num
    omega
  by_cases hi : i < 0
  · simp only [jsIntToString, if_pos hi, String.data_append]
    have := jsNatToString_length_le i.natAbs 16 (by omega) hlt
    simp only [List.length_append, List.length_cons, List.length_nil]
    omega
  · simp only [jsIntToString, if_neg hi]
    have hlt' : i.toNat < 10 ^ 16 := by omega
    have := jsNatToString_length_le i.toNat 16 (by omega) hlt'
    omega

/-! ## Quote escaping and the D-substitution -/

theorem unescapeQuotesAux_two (r : List Char) :
    unescapeQuotesAux ('\'' :: '\'' :: r) = '\'' :: unescapeQuotesAux r := rfl

theorem unescapeQuotesAux_cons_ne (c : Char) (hc : c ≠ '\'') (l : List Char) :
    unescapeQuotesAux (c :: l) = c :: unescapeQuotesAux l := by
  rw [unescapeQuotesAux.eq_def]
  split
  all_goals first
    | (rename_i heq; exact List.noConfusion heq)
    | (rename_i heq; injection heq with h1 h2; exact absurd h1 hc)
    | (rename_i heq; injection heq with h1 h2; subst h1; subst h2; rfl)

theorem unescapeQuotesAux_escape (l : List Char) :
    unescapeQuotesAux (l.flatMap (fun c => if c = '\'' then ['\'', '\''] else [c])) = l := by
  induction l with
  | nil => rfl
  | cons c t ih =>
    by_cases hc : c = '\''
    · subst hc
      simp only [List.flatMap_cons, if_pos rfl, if_true, List.cons_append, List.nil_append,
        List.append_eq]
      rw [unescapeQuotesAux_two, ih]
    · simp only [List.flatMap_cons, if_neg hc, List.singleton_append]
      rw [unescapeQuotesAux_cons_ne c hc, ih]

/-- Unescaping inverts escaping. -/
theorem unescapeQuotes_escapeQuotes (s : String) :
    unescapeQuotes ⟨(escapeQuotes s).data⟩ = s := by
  cases s with
  | mk l => exact congrArg String.mk (unescapeQuotesAux_escape l)

theorem replaceFirstDAux_cons_ne (c : Char) (hc : c ≠ 'D') (l : List Char) :
    replaceFirstDAux (c :: l) = c :: replaceFirstDAux l := by
  rw [replaceFirstDAux.eq_def]
  split
  all_goals first
    | (rename_i heq; exact List.noConfusion heq)
    | (rename_i heq; injection heq with h1 h2; exact absurd h1 hc)
    | (rename_i heq; injection heq with h1 h2; subst h1; subst h2; rfl)

theorem replaceFirstDAux_no_D (l : List Char) (h : ∀ c ∈ l, c ≠ 'D') :
    replaceFirstDAux l = l := by
  induction l with
  | nil => rfl
  | cons c t ih =>
    rw [replaceFirstDAux_cons_ne c (h c (by simp)), ih (fun x hx => h x (by simp [hx]))]

/-! ## Key and value-field shapes -/

theorem goodKey_spec {k : String} (hk : goodKey k = true) :
    k.data ≠ [] ∧ k.data.length ≤ 8 ∧ (∀ c ∈ k.data, goodKeyChar c = true) ∧
    k ≠ "COMMENT" ∧ k ≠ "HISTORY" ∧ jsStartsWith k "END" = false := by
  simp only [goodKey, Bool.and_eq_true, Bool.not_eq_true', decide_eq_true_eq,
    List.all_eq_true] at hk
  obtain ⟨⟨⟨⟨⟨h1, h2⟩, h3⟩, h4⟩, h5⟩, h6⟩ := hk
  refine ⟨?_, h2, h3, h4, h5, h6⟩
  intro hnil
  rw [hnil] at h1
  simp at h1

theorem goodKey_ne_END {k : String} (hk : goodKey k = true) : k ≠ "END" := by
  intro he
  subst he
  have := (goodKey_spec hk).2.2.2.2.2
  simp [jsStartsWith, List.isPrefixOf] at this

theorem jsIntToString_chars (i : Int) :
    ∀ c ∈ (jsIntToString i).data, c = '-' ∨ (48 ≤ c.toNat ∧ c.toNat ≤ 57) := by
  intro c hc
  by_cases hi : i < 0
  · simp only [jsIntToString, if_pos hi, String.data_append] at hc
    rcases List.mem_append.mp hc with hm | hm
    · left
      simpa using hm
    · right; exact jsNatToString_chars i.natAbs c hm
  · simp only [jsIntToString, if_neg hi] at hc
    right; exact jsNatToString_chars i.toNat c hc

theorem formatCardValueField_none :
    FitsHeader.formatCardValueField none = List.replicate 20 ' ' := rfl

theorem formatCardValueField_bool (b : Bool) :
    FitsHeader.formatCardValueField (some (.vbool b)) =
      List.replicate 19 ' ' ++ [if b then 'T' else 'F'] := by
  cases b <;> rfl

theorem formatCardValueField_int (n : Int) (h : (jsIntToString n).data.length ≤ 20) :
    FitsHeader.formatCardValueField (some (.vint n)) =
      List.replicate (20 - (jsIntToString n).data.length) ' ' ++ (jsIntToString n).data := by
  simp only [FitsHeader.formatCardValueField, jsPadStart, jsTake]
  rw [List.take_of_length_le h]

theorem formatCardValueField_str (s : String) (h : (escapeQuotes s).data.length ≤ 68) :
    FitsHeader.formatCardValueField (some (.vstr s)) =
      ('\'' :: (escapeQuotes s).data ++ ['\'']) ++
        List.replicate (20 - ((escapeQuotes s).data.length + 2)) ' ' := by
  simp only [FitsHeader.formatCardValueField]
  rw [if_neg (by omega)]
  simp only [jsPadEnd, String.data_append]
  have hlen : ((("'" : String).data ++ (escapeQuotes s).data) ++ ("'" : String).data).length
      = (escapeQuotes s).data.length + 2 := by simp
  rw [hlen]
  simp

/-- The value field is the value text with space padding on both sides, at
most 70 characters in total. -/
theorem formatCardValueField_decomp (v : Option FitsValue) (hv : goodValue v = true) :
    ∃ a m, FitsHeader.formatCardValueField v =
      List.replicate a ' ' ++ valueTextChars v ++ List.replicate m ' ' ∧
      a + (valueTextChars v).length + m ≤ 70 := by
  match v with
  | none =>
    exact ⟨20, 0, by simp [formatCardValueField_none, valueTextChars], by
      simp [valueTextChars]⟩
  | some (.vbool b) =>
    exact ⟨19, 0, by simp [formatCardValueField_bool, valueTextChars], by
      simp [valueTextChars]⟩
  | some (.vint n) =>
    have hlen : (jsIntToString n).data.length ≤ 20 := by
      have : n.natAbs < 2 ^ 53 := by
        simpa [goodValue] using hv
      have := jsIntToString_length_le n this
      omega
    exact ⟨20 - (jsIntToString n).data.length, 0, by
      simp [formatCardValueField_int n hlen, valueTextChars], by
      simp only [valueTextChars]; omega⟩
  | some (.vstr s) =>
    have hlen : (escapeQuotes s).data.length ≤ 68 := by
      simp only [goodValue, Bool.and_eq_true, decide_eq_true_eq] at hv
      exact hv.2
    refine ⟨0, 20 - ((escapeQuotes s).data.length + 2), by
      simp [formatCardValueField_str s hlen, valueTextChars], ?_⟩
    have hvt : (valueTextChars (some (.vstr s))).length = (escapeQuotes s).data.length + 2 := by
      simp [valueTextChars]
    omega
  | some (.vfloat f) => simp [goodValue] at hv
  | some .vnan => simp [goodValue] at hv

/-! ## Clean tokens and padded trimming -/

theorem jsTrimEnd_clean (l : List Char)
    (hl : ∀ c, l.getLast? = some c → isJsSpace c = false) :
    jsTrimEnd ⟨l⟩ = ⟨l⟩ := by
  unfold jsTrimEnd
  cases hr : l.reverse with
  | nil =>
    have h0 : l = [] := List.reverse_eq_nil_iff.mp hr
    subst h0
    rfl
  | cons b rb =>
    have hb : isJsSpace b = false := by
      apply hl
      rw [List.getLast?_eq_head?_reverse, hr]
      rfl
    rw [List.dropWhile_cons, hb]
    simp only [Bool.false_eq_true, if_false]
    rw [← hr, List.reverse_reverse]

theorem jsTrimStart_clean (l : List Char)
    (hh : ∀ c, l.head? = some c → isJsSpace c = false) :
    jsTrimStart ⟨l⟩ = ⟨l⟩ := by
  cases l with
  | nil => rfl
  | cons a t => exact jsTrimStart_cons_of_not_space a t (hh a rfl)

theorem jsTrimEnd_all_spaces (a : Nat) : jsTrimEnd ⟨List.replicate a ' '⟩ = ⟨[]⟩ := by
  simpa using jsTrimEnd_append_spaces [] a

/-- Trimming a space-padded clean token recovers the token. -/
theorem jsTrim_padded (a m : Nat) (mid : List Char)
    (hh : ∀ c, mid.head? = some c → isJsSpace c = false)
    (hl : ∀ c, mid.getLast? = some c → isJsSpace c = false) :
    jsTrim ⟨List.replicate a ' ' ++ mid ++ List.replicate m ' '⟩ = ⟨mid⟩ := by
  unfold jsTrim
  rw [jsTrimEnd_append_spaces]
  cases mid with
  | nil =>
    rw [List.append_nil, jsTrimEnd_all_spaces]
    rfl
  | cons c t =>
    rw [jsTrimEnd_append]
    rw [jsTrimEnd_clean (c :: t) hl]
    rw [if_neg (fun h => List.noConfusion h)]
    show jsTrimStart ⟨List.replicate a ' ' ++ (c :: t)⟩ = _
    rw [jsTrimStart_spaces_append]
    exact jsTrimStart_clean (c :: t) hh

/-! ## Value-text character facts -/

theorem escapeQuotes_mem (s : String) (c : Char) (hc : c ∈ (escapeQuotes s).data) :
    c = '\'' ∨ c ∈ s.data := by
  simp only [escapeQuotes, List.mem_flatMap] at hc
  obtain ⟨x, hx, hcx⟩ := hc
  by_cases hq : x = '\''
  · rw [if_pos hq] at hcx
    left
    simpa using hcx
  · rw [if_neg hq] at hcx
    right
    have hce : c = x := by simpa using hcx
    subst hce
    exact hx

theorem jsNatToString_ne_nil (m : Nat) : (jsNatToString m).data ≠ [] := by
  by_cases hm : m = 0
  · subst hm; simp [jsNatToString]
  · simp only [jsNatToString, if_neg hm]
    simpa using natDigitsRev_ne_nil m (by omega)

theorem jsIntToString_ne_nil (i : Int) : (jsIntToString i).data ≠ [] := by
  by_cases hi : i < 0
  · simp only [jsIntToString, if_pos hi, String.data_append]
    simp [show ("-" : String).data = ['-'] from rfl]
  · simp only [jsIntToString, if_neg hi]
    exact jsNatToString_ne_nil _

theorem goodValue_str_parts {s : String} (hv : goodValue (some (.vstr s)) = true) :
    (∀ c ∈ s.data, goodStrChar c = true) ∧ (escapeQuotes s).data.length ≤ 68 := by
  simp only [goodValue, Bool.and_eq_true, List.all_eq_true, decide_eq_true_eq] at hv
  exact hv

theorem valueTextChars_str (s : String) :
    valueTextChars (some (.vstr s))
      = ('\'' :: (escapeQuotes s).data) ++ ['\''] := by
  simp [valueTextChars]

theorem valueTextChars_no_slash (v : Option FitsValue) (hv : goodValue v = true) :
    ∀ c ∈ valueTextChars v, c ≠ '/' := by
  intro c hc
  match v with
  | none => cases hc
  | some (.vfloat f) => cases hc
  | some .vnan => cases hc
  | some (.vbool b) =>
    cases b
    · have : c = 'F' := by simpa [valueTextChars] using hc
      subst this; decide
    · have : c = 'T' := by simpa [valueTextChars] using hc
      subst this; decide
  | some (.vint n) =>
    simp only [valueTextChars] at hc
    rcases jsIntToString_chars n c hc with h | h
    · subst h; decide
    · intro he
      subst he
      exact absurd h (by decide)
  | some (.vstr s) =>
    rw [valueTextChars_str] at hc
    rcases List.mem_append.mp hc with h | h
    · rcases List.mem_cons.mp h with h' | hesc
      · subst h'; decide
      · rcases escapeQuotes_mem s c hesc with h' | h'
        · subst h'; decide
        · have hg := (goodValue_str_parts hv).1 c h'
          simp only [goodStrChar, Bool.and_eq_true, decide_eq_true_eq] at hg
          exact hg.2
    · have : c = '\'' := by simpa using h
      subst this; decide

theorem valueTextChars_head (v : Option FitsValue) (hv : goodValue v = true) :
    ∀ c, (valueTextChars v).head? = some c → isJsSpace c = false := by
  intro c hc
  match v with
  | none => cases hc
  | some (.vfloat f) => cases hc
  | some .vnan => cases hc
  | some (.vbool b) =>
    cases b
    · have : 'F' = c := by simpa [valueTextChars] using hc
      subst this; decide
    · have : 'T' = c := by simpa [valueTextChars] using hc
      subst this; decide
  | some (.vint n) =>
    simp only [valueTextChars] at hc
    have hmem : c ∈ (jsIntToString n).data := List.mem_of_mem_head? hc
    rcases jsIntToString_chars n c hmem with h | h
    · subst h; decide
    · exact char_digit_not_space h
  | some (.vstr s) =>
    have : '\'' = c := by simpa [valueTextChars] using hc
    subst this
    decide

theorem valueTextChars_last (v : Option FitsValue) (hv : goodValue v = true) :
    ∀ c, (valueTextChars v).getLast? = some c → isJsSpace c = false := by
  intro c hc
  match v with
  | none => cases hc
  | some (.vfloat f) => cases hc
  | some .vnan => cases hc
  | some (.vbool b) =>
    cases b
    · have : 'F' = c := by simpa [valueTextChars] using hc
      subst this; decide
    · have : 'T' = c := by simpa [valueTextChars] using hc
      subst this; decide
  | some (.vint n) =>
    simp only [valueTextChars] at hc
    have hmem : c ∈ (jsIntToString n).data := List.mem_of_mem_getLast? hc
    rcases jsIntToString_chars n c hmem with h | h
    · subst h; decide
    · exact char_digit_not_space h
  | some (.vstr s) =>
    rw [valueTextChars_str, List.getLast?_concat] at hc
    have : '\'' = c := by simpa using hc
    subst this
    decide

/-! ## The shape of a formatted card -/

theorem goodComment_some {v : Option FitsValue} {cc : String}
    (hc : goodComment v (some cc) = true) :
    (∀ ch ∈ cc.data, goodCommentChar ch = true) ∧
    10 + (FitsHeader.formatCardValueField v).length + 3 + cc.data.length ≤ 80 := by
  simp only [goodComment, Bool.and_eq_true, List.all_eq_true, decide_eq_true_eq] at hc
  exact hc

/-- A formatted card with a well-formed key, value and comment is 80
characters: the padded key, `= `, spaces, the value text, spaces, and
(when a comment is present) a slash followed by the comment. -/
theorem formatCard_shape (k : String) (v : Option FitsValue) (c : Option String)
    (hk : goodKey k = true) (hv : goodValue v = true) (hc : goodComment v c = true) :
    ∃ a m rest,
      (FitsHeader.formatCard k v c).data =
        k.data ++ List.replicate (8 - k.data.length) ' ' ++ '=' :: ' ' ::
          (List.replicate a ' ' ++ (valueTextChars v ++ (List.replicate m ' ' ++ rest))) ∧
      (rest = [] ∨ ∃ tl, rest = '/' :: tl) ∧
      (FitsHeader.formatCard k v c).data.length = 80 := by
  obtain ⟨hne, hlen8, hchars, hcom, hhis, hendp⟩ := goodKey_spec hk
  have hkEND : k ≠ "END" := goodKey_ne_END hk
  obtain ⟨a, m1, hfield, hbound⟩ := formatCardValueField_decomp v hv
  have hguard : ¬ ((k = "COMMENT" || k = "HISTORY") = true) := by
    simp [hcom, hhis]
  cases c with
  | none =>
    have hdata : (FitsHeader.formatCard k v none).data
        = k.data ++ List.replicate (8 - k.data.length) ' ' ++ '=' :: ' ' ::
          (List.replicate a ' ' ++ (valueTextChars v ++
            (List.replicate (m1 + (80 - (10 + (a + ((valueTextChars v).length + m1))))) ' '
              ++ []))) := by
      unfold FitsHeader.formatCard
      rw [if_neg hkEND, if_neg hguard]
      simp only [jsPadEnd, String.data_append, hfield]
      have hLlen : (k.data ++ List.replicate (8 - k.data.length) ' ' ++ ['=', ' '] ++
            (List.replicate a ' ' ++ valueTextChars v ++ List.replicate m1 ' ') ++
            ([] : List Char)).length
          = 10 + (a + ((valueTextChars v).length + m1)) := by
        simp only [List.length_append, List.length_replicate, List.length_cons,
          List.length_nil]
        omega
      rw [hLlen, if_pos (by omega)]
      dsimp only
      simp only [List.append_nil, List.append_assoc, List.cons_append, List.nil_append,
        List.replicate_add]
    refine ⟨_, _, [], hdata, Or.inl rfl, ?_⟩
    rw [hdata]
    simp only [List.length_append, List.length_replicate, List.length_cons, List.length_nil]
    omega
  | some cc =>
    by_cases hcc : cc = ""
    · subst hcc
      have hdata : (FitsHeader.formatCard k v (some "")).data
          = k.data ++ List.replicate (8 - k.data.length) ' ' ++ '=' :: ' ' ::
            (List.replicate a ' ' ++ (valueTextChars v ++
              (List.replicate (m1 + (80 - (10 + (a + ((valueTextChars v).length + m1))))) ' '
                ++ []))) := by
        unfold FitsHeader.formatCard
        rw [if_neg hkEND, if_neg hguard]
        dsimp only
        rw [if_neg (show ¬ ("" : String) ≠ "" by simp)]
        simp only [jsPadEnd, String.data_append, hfield,
          show ("" : String).data = [] from rfl]
        have hLlen : (k.data ++ List.replicate (8 - k.data.length) ' ' ++ ['=', ' '] ++
              (List.replicate a ' ' ++ valueTextChars v ++ List.replicate m1 ' ') ++
              ([] : List Char)).length
            = 10 + (a + ((valueTextChars v).length + m1)) := by
          simp only [List.length_append, List.length_replicate, List.length_cons,
            List.length_nil]
          omega
        rw [hLlen, if_pos (by omega)]
        dsimp only
        simp only [List.append_nil, List.append_assoc, List.cons_append, List.nil_append,
          List.replicate_add]
      refine ⟨_, _, [], hdata, Or.inl rfl, ?_⟩
      rw [hdata]
      simp only [List.length_append, List.length_replicate, List.length_cons, List.length_nil]
      omega
    · have hfit := (goodComment_some hc).2
      have hflen : (FitsHeader.formatCardValueField v).length =
          a + ((valueTextChars v).length + m1) := by
        rw [hfield]
        simp only [List.length_append, List.length_replicate]
        omega
      have hdata : (FitsHeader.formatCard k v (some cc)).data
          = k.data ++ List.replicate (8 - k.data.length) ' ' ++ '=' :: ' ' ::
            (List.replicate a ' ' ++ (valueTextChars v ++
              (List.replicate (m1 + 1) ' ' ++ ('/' :: (' ' :: cc.data ++
                List.replicate (80 - (10 + (a + ((valueTextChars v).length + m1)) +
                  (3 + cc.data.length))) ' '))))) := by
        unfold FitsHeader.formatCard
        rw [if_neg hkEND, if_neg hguard]
        dsimp only
        rw [if_pos hcc]
        simp only [jsPadEnd, String.data_append, hfield,
          show (" / " : String).data = [' ', '/', ' '] from rfl]
        have hLlen : (k.data ++ List.replicate (8 - k.data.length) ' ' ++ ['=', ' '] ++
              (List.replicate a ' ' ++ valueTextChars v ++ List.replicate m1 ' ') ++
              ([' ', '/', ' '] ++ cc.data)).length
            = 10 + (a + ((valueTextChars v).length + m1)) + (3 + cc.data.length) := by
          simp only [List.length_append, List.length_replicate, List.length_cons,
            List.length_nil]
          omega
        rw [hLlen, if_pos (by omega)]
        dsimp only
        simp only [List.append_nil, List.append_assoc, List.cons_append, List.nil_append,
          List.replicate_add, List.replicate_one]
      refine ⟨_, _, _, hdata, Or.inr ⟨_, rfl⟩, ?_⟩
      rw [hdata]
      simp only [List.length_append, List.length_replicate, List.length_cons, List.length_nil]
      omega

/-! ## Record-level consequences of the card shape -/

theorem no_END_prefix (k : String) (hk : goodKey k = true) (r : List Char) :
    jsStartsWith ⟨k.data ++ List.replicate (8 - k.data.length) ' ' ++ '=' :: r⟩ "END"
      = false := by
  obtain ⟨hne, hlen8, hchars, _h1, _h2, hendp⟩ := goodKey_spec hk
  unfold jsStartsWith at hendp ⊢
  rw [show ("END" : String).data = ['E', 'N', 'D'] from rfl] at hendp ⊢
  cases hkd : k.data with
  | nil => exact absurd hkd hne
  | cons c1 t1 =>
    rw [hkd] at hendp
    cases t1 with
    | nil =>
      simp only [List.cons_append, List.nil_append, List.length_cons, List.length_nil]
      show (['E', 'N', 'D'].isPrefixOf (c1 :: (List.replicate 7 ' ' ++ '=' :: r))) = false
      simp [List.isPrefixOf, List.replicate_succ]
    | cons c2 t2 =>
      cases t2 with
      | nil =>
        simp only [List.cons_append, List.nil_append, List.length_cons, List.length_nil]
        show (['E', 'N', 'D'].isPrefixOf
          (c1 :: c2 :: (List.replicate 6 ' ' ++ '=' :: r))) = false
        simp [List.isPrefixOf, List.replicate_succ]
      | cons c3 t3 =>
        simp only [List.cons_append, List.isPrefixOf, Bool.and_eq_true] at hendp ⊢
        simpa using hendp

theorem formatCard_not_END (k : String) (v : Option FitsValue) (c : Option String)
    (hk : goodKey k = true) (hv : goodValue v = true) (hc : goodComment v c = true) :
    jsStartsWith (FitsHeader.formatCard k v c) "END" = false := by
  obtain ⟨a, m, rest, hdata, _hr, _hl⟩ := formatCard_shape k v c hk hv hc
  have h := no_END_prefix k hk
    (' ' :: (List.replicate a ' ' ++ (valueTextChars v ++ (List.replicate m ' ' ++ rest))))
  rw [← hdata] at h
  exact h

theorem formatCard_trim_not_END (k : String) (v : Option FitsValue) (c : Option String)
    (hk : goodKey k = true) (hv : goodValue v = true) (hc : goodComment v c = true) :
    jsStartsWith (jsTrim (FitsHeader.formatCard k v c)) "END" = false := by
  obtain ⟨hne, hlen8, hchars, _h1, _h2, _h3⟩ := goodKey_spec hk
  obtain ⟨a, m, rest, hdata, _hr, _hl⟩ := formatCard_shape k v c hk hv hc
  have hregroup : (FitsHeader.formatCard k v c).data
      = (k.data ++ List.replicate (8 - k.data.length) ' ' ++ ['=']) ++
        (' ' :: (List.replicate a ' ' ++ (valueTextChars v ++ (List.replicate m ' ' ++ rest)))) := by
    rw [hdata]
    simp [List.append_assoc]
  have hA : jsTrimEnd ⟨k.data ++ List.replicate (8 - k.data.length) ' ' ++ ['=']⟩
      = ⟨k.data ++ List.replicate (8 - k.data.length) ' ' ++ ['=']⟩ := by
    apply jsTrimEnd_clean
    intro ch hch
    rw [show k.data ++ List.replicate (8 - k.data.length) ' ' ++ ['=']
        = (k.data ++ List.replicate (8 - k.data.length) ' ') ++ ['='] from by
        simp [List.append_assoc], List.getLast?_concat] at hch
    have he : '=' = ch := by simpa using hch
    subst he
    decide
  have hEtrim : ∃ Y, jsTrimEnd ⟨(k.data ++ List.replicate (8 - k.data.length) ' ' ++ ['=']) ++
        (' ' :: (List.replicate a ' ' ++ (valueTextChars v ++ (List.replicate m ' ' ++ rest))))⟩
      = ⟨(k.data ++ List.replicate (8 - k.data.length) ' ' ++ ['=']) ++ Y⟩ := by
    rw [jsTrimEnd_append]
    by_cases hz : (jsTrimEnd ⟨' ' :: (List.replicate a ' ' ++
        (valueTextChars v ++ (List.replicate m ' ' ++ rest)))⟩).data = []
    · rw [if_pos hz, hA]
      exact ⟨[], by rw [List.append_nil]⟩
    · rw [if_neg hz]
      exact ⟨_, rfl⟩
  obtain ⟨Y, hY⟩ := hEtrim
  have hstep : (jsTrim (FitsHeader.formatCard k v c)).data
      = k.data ++ List.replicate (8 - k.data.length) ' ' ++ '=' :: Y := by
    unfold jsTrim
    rw [show FitsHeader.formatCard k v c = ⟨(FitsHeader.formatCard k v c).data⟩ from rfl,
      hregroup, hY]
    cases hkd : k.data with
    | nil => exact absurd hkd hne
    | cons c1 t1 =>
      rw [List.cons_append, List.cons_append, List.cons_append]
      rw [jsTrimStart_cons_of_not_space c1 _
        (goodKeyChar_not_space (hchars c1 (by rw [hkd]; exact List.mem_cons_self c1 t1)))]
      simp only [List.cons_append, List.append_assoc, List.nil_append]
  have h := no_END_prefix k hk Y
  rw [← hstep] at h
  exact h

theorem formatCard_key (k : String) (v : Option FitsValue) (c : Option String)
    (hk : goodKey k = true) (hv : goodValue v = true) (hc : goodComment v c = true) :
    jsTrim (jsTake (FitsHeader.formatCard k v c) 8) = k := by
  obtain ⟨hne, hlen8, hchars, _h1, _h2, _h3⟩ := goodKey_spec hk
  obtain ⟨a, m, rest, hdata, _hr, _hl⟩ := formatCard_shape k v c hk hv hc
  have htake : jsTake (FitsHeader.formatCard k v c) 8
      = ⟨k.data ++ List.replicate (8 - k.data.length) ' '⟩ := by
    unfold jsTake
    rw [show FitsHeader.formatCard k v c = ⟨(FitsHeader.formatCard k v c).data⟩ from rfl,
      hdata]
    rw [List.take_left']
    simp only [List.length_append, List.length_replicate]
    omega
  rw [htake]
  have h := jsTrim_padded 0 (8 - k.data.length) k.data
    (fun ch hch => goodKeyChar_not_space (hchars ch (List.mem_of_mem_head? hch)))
    (fun ch hch => goodKeyChar_not_space (hchars ch (List.mem_of_mem_getLast? hch)))
  exact h

theorem formatCard_eqIdx (k : String) (v : Option FitsValue) (c : Option String)
    (hk : goodKey k = true) (hv : goodValue v = true) (hc : goodComment v c = true) :
    jsIndexOfChar (FitsHeader.formatCard k v c) '=' = some 8 := by
  obtain ⟨hne, hlen8, hchars, _h1, _h2, _h3⟩ := goodKey_spec hk
  obtain ⟨a, m, rest, hdata, _hr, _hl⟩ := formatCard_shape k v c hk hv hc
  unfold jsIndexOfChar
  rw [hdata]
  rw [idxOf?_append_right]
  · rw [idxOf?_cons_self]
    simp only [Option.map_some', List.length_append, List.length_replicate]
    congr 1
    omega
  · intro x hx
    rcases List.mem_append.mp hx with h | h
    · exact goodKeyChar_ne_eq (hchars x h)
    · have : x = ' ' := by simpa using List.eq_of_mem_replicate h
      subst this
      decide

/-- The trimmed tail of the card after the `= ` marker: the value text,
spaces, and (with a comment) a slash-led remainder. -/
theorem formatCard_vac (k : String) (v : Option FitsValue) (c : Option String)
    (hk : goodKey k = true) (hv : goodValue v = true) (hc : goodComment v c = true) :
    ∃ m2 tl2, (jsTrim (jsDrop (FitsHeader.formatCard k v c) 9)).data
        = valueTextChars v ++ List.replicate m2 ' ' ++ tl2 ∧
      ((m2 = 0 ∧ tl2 = []) ∨ ∃ tl, tl2 = '/' :: tl) := by
  obtain ⟨hne, hlen8, hchars, _h1, _h2, _h3⟩ := goodKey_spec hk
  obtain ⟨a, m, rest, hdata, hrest, _hl⟩ := formatCard_shape k v c hk hv hc
  have hdrop : jsDrop (FitsHeader.formatCard k v c) 9
      = ⟨' ' :: (List.replicate a ' ' ++ (valueTextChars v ++ (List.replicate m ' ' ++ rest)))⟩ := by
    unfold jsDrop
    rw [show FitsHeader.formatCard k v c = ⟨(FitsHeader.formatCard k v c).data⟩ from rfl,
      hdata]
    rw [show k.data ++ List.replicate (8 - k.data.length) ' ' ++ '=' :: ' ' ::
        (List.replicate a ' ' ++ (valueTextChars v ++ (List.replicate m ' ' ++ rest)))
      = (k.data ++ List.replicate (8 - k.data.length) ' ' ++ ['=']) ++
        (' ' :: (List.replicate a ' ' ++ (valueTextChars v ++ (List.replicate m ' ' ++ rest))))
      from by simp [List.append_assoc]]
    rw [List.drop_left']
    simp only [List.length_append, List.length_replicate, List.length_cons, List.length_nil]
    omega
  rw [hdrop]
  have hconsrepl : ' ' :: (List.replicate a ' ' ++ (valueTextChars v ++ (List.replicate m ' ' ++ rest)))
      = List.replicate (a + 1) ' ' ++ (valueTextChars v ++ (List.replicate m ' ' ++ rest)) := by
    rw [show a + 1 = 1 + a from by omega, List.replicate_add]
    rfl
  rcases hrest with hrest | ⟨tl, hrest⟩
  · subst hrest
    refine ⟨0, [], ?_, Or.inl ⟨rfl, rfl⟩⟩
    rw [hconsrepl]
    rw [show List.replicate (a + 1) ' ' ++ (valueTextChars v ++ (List.replicate m ' ' ++ []))
        = List.replicate (a + 1) ' ' ++ valueTextChars v ++ List.replicate m ' '
      from by simp [List.append_assoc]]
    rw [jsTrim_padded (a + 1) m (valueTextChars v)
      (valueTextChars_head v hv) (valueTextChars_last v hv)]
    simp
  · subst hrest
    have hre : ' ' :: (List.replicate a ' ' ++ (valueTextChars v ++ (List.replicate m ' ' ++ '/' :: tl)))
        = (List.replicate (a + 1) ' ' ++ valueTextChars v ++ List.replicate m ' ' ++ ['/']) ++ tl := by
      rw [hconsrepl]
      simp [List.append_assoc]
    rw [hre]
    unfold jsTrim
    rw [jsTrimEnd_append]
    have hB : jsTrimEnd ⟨List.replicate (a + 1) ' ' ++ valueTextChars v ++
        List.replicate m ' ' ++ ['/']⟩
        = ⟨List.replicate (a + 1) ' ' ++ valueTextChars v ++ List.replicate m ' ' ++ ['/']⟩ := by
      apply jsTrimEnd_clean
      intro ch hch
      rw [List.getLast?_concat] at hch
      have he : '/' = ch := by simpa using hch
      subst he
      decide
    by_cases hz : (jsTrimEnd ⟨tl⟩).data = []
    · rw [if_pos hz, hB]
      cases hvt : valueTextChars v with
      | nil =>
        refine ⟨0, '/' :: [], ?_, Or.inr ⟨[], rfl⟩⟩
        rw [show List.replicate (a + 1) ' ' ++ ([] : List Char) ++ List.replicate m ' ' ++ ['/']
            = List.replicate (a + 1) ' ' ++ (List.replicate m ' ' ++ ['/'])
          from by rw [List.append_nil, List.append_assoc]]
        rw [jsTrimStart_spaces_append, jsTrimStart_spaces_append]
        rw [jsTrimStart_cons_of_not_space '/' [] (by decide)]
        rfl
      | cons c0 vt' =>
        refine ⟨m, '/' :: [], ?_, Or.inr ⟨[], rfl⟩⟩
        rw [show List.replicate (a + 1) ' ' ++ (c0 :: vt') ++ List.replicate m ' ' ++ ['/']
            = List.replicate (a + 1) ' ' ++ ((c0 :: vt') ++ (List.replicate m ' ' ++ ['/']))
          from by simp only [List.append_assoc]]
        rw [jsTrimStart_spaces_append]
        rw [List.cons_append]
        rw [jsTrimStart_cons_of_not_space c0 _
          (valueTextChars_head v hv c0 (by rw [hvt]; rfl))]
        simp only [List.cons_append, List.append_assoc]
    · rw [if_neg hz]
      cases hvt : valueTextChars v with
      | nil =>
        refine ⟨0, '/' :: (jsTrimEnd ⟨tl⟩).data, ?_, Or.inr ⟨_, rfl⟩⟩
        rw [show (List.replicate (a + 1) ' ' ++ ([] : List Char) ++ List.replicate m ' ' ++ ['/'])
              ++ (jsTrimEnd ⟨tl⟩).data
            = List.replicate (a + 1) ' ' ++ (List.replicate m ' ' ++ ('/' :: (jsTrimEnd ⟨tl⟩).data))
          from by rw [List.append_nil]; simp only [List.append_assoc, List.cons_append,
            List.singleton_append, List.nil_append]]
        rw [jsTrimStart_spaces_append, jsTrimStart_spaces_append]
        rw [jsTrimStart_cons_of_not_space '/' _ (by decide)]
        rfl
      | cons c0 vt' =>
        refine ⟨m, '/' :: (jsTrimEnd ⟨tl⟩).data, ?_, Or.inr ⟨_, rfl⟩⟩
        rw [show (List.replicate (a + 1) ' ' ++ (c0 :: vt') ++ List.replicate m ' ' ++ ['/'])
              ++ (jsTrimEnd ⟨tl⟩).data
            = List.replicate (a + 1) ' ' ++ ((c0 :: vt') ++ (List.replicate m ' ' ++
                ('/' :: (jsTrimEnd ⟨tl⟩).data)))
          from by simp only [List.append_assoc, List.cons_append, List.singleton_append,
            List.nil_append]]
        rw [jsTrimStart_spaces_append]
        rw [List.cons_append]
        rw [jsTrimStart_cons_of_not_space c0 _
          (valueTextChars_head v hv c0 (by rw [hvt]; rfl))]
        simp only [List.cons_append, List.append_assoc]

/-! ## Parsing inverts formatting at the card level -/

theorem parseValue_valueText (v : Option FitsValue) (hv : goodValue v = true) :
    parseValue ⟨valueTextChars v⟩ = v := by
  match v with
  | none => rfl
  | some (.vbool true) => decide
  | some (.vbool false) => decide
  | some (.vfloat f) => simp [goodValue] at hv
  | some .vnan => simp [goodValue] at hv
  | some (.vint n) =>
    have hchars := jsIntToString_chars n
    have hnn := jsIntToString_ne_nil n
    show parseValue (jsIntToString n) = some (.vint n)
    unfold parseValue
    rw [if_neg (show ¬ jsIntToString n = "" by
      intro he
      rw [he] at hnn
      exact hnn rfl)]
    rw [if_neg (show ¬ jsStartsWith (jsIntToString n) "'" = true by
      unfold jsStartsWith
      rw [show ("'" : String).data = ['\''] from rfl]
      cases hd : (jsIntToString n).data with
      | nil => exact absurd hd hnn
      | cons c0 t0 =>
        have hc0 := hchars c0 (by rw [hd]; exact List.mem_cons_self c0 t0)
        intro hpre
        simp only [List.isPrefixOf, Bool.and_eq_true, beq_iff_eq] at hpre
        rcases hc0 with h | h
        · rw [← hpre.1] at h
          exact absurd h (by decide)
        · rw [← hpre.1] at h
          exact absurd h (by decide))]
    rw [if_neg (show ¬ ((jsIntToString n = "T" || jsIntToString n = "F") = true) by
      simp only [Bool.or_eq_true, decide_eq_true_eq]
      rintro (he | he)
      · have hmem : 'T' ∈ (jsIntToString n).data := by rw [he]; decide
        rcases hchars _ hmem with h | h
        · exact absurd h (by decide)
        · exact absurd h (by decide)
      · have hmem : 'F' ∈ (jsIntToString n).data := by rw [he]; decide
        rcases hchars _ hmem with h | h
        · exact absurd h (by decide)
        · exact absurd h (by decide))]
    have hnD : ∀ x ∈ (jsIntToString n).data, x ≠ 'D' := by
      intro x hx
      rcases hchars x hx with h | h
      · subst h; decide
      · intro he
        subst he
        exact absurd h (by decide)
    have hD : replaceFirstD (jsIntToString n) = jsIntToString n := by
      unfold replaceFirstD
      rw [replaceFirstDAux_no_D _ hnD]
    rw [hD]
    have hFM : hasFloatMark (jsIntToString n) = false := by
      unfold hasFloatMark
      rw [List.any_eq_false]
      intro x hx
      rcases hchars x hx with h | h
      · subst h; decide
      · simp only [Bool.or_eq_true, decide_eq_true_eq]
        rintro ((he | he) | he) <;> (subst he; exact absurd h (by decide))
    rw [if_neg (by rw [hFM]; exact Bool.false_ne_true)]
    rw [jsParseInt_jsIntToString n]
  | some (.vstr s) =>
    obtain ⟨hstr, hlen⟩ := goodValue_str_parts hv
    show parseValue ⟨('\'' :: (escapeQuotes s).data) ++ ['\'']⟩ = some (.vstr s)
    unfold parseValue
    rw [if_neg (show ¬ (⟨('\'' :: (escapeQuotes s).data) ++ ['\'']⟩ : String) = "" by
      intro he
      have h := congrArg String.data he
      rw [show ("" : String).data = [] from rfl] at h
      simp at h)]
    rw [if_pos (show jsStartsWith ⟨('\'' :: (escapeQuotes s).data) ++ ['\'']⟩ "'" = true by
      unfold jsStartsWith
      rw [show ("'" : String).data = ['\''] from rfl]
      simp [List.isPrefixOf, List.cons_append])]
    have hlast : jsLastIndexOfChar ⟨('\'' :: (escapeQuotes s).data) ++ ['\'']⟩ '\''
        = some ((escapeQuotes s).data.length + 1) := by
      unfold jsLastIndexOfChar
      rw [show ((('\'' :: (escapeQuotes s).data) ++ ['\'']) : List Char).reverse
          = '\'' :: ('\'' :: (escapeQuotes s).data).reverse from by
        rw [List.reverse_append]
        rfl]
      rw [idxOf?_cons_self]
      simp only [List.length_append, List.length_cons]
      congr 1
    rw [hlast]
    dsimp only
    rw [if_pos (by omega : 0 < (escapeQuotes s).data.length + 1)]
    unfold jsSlice
    rw [show ((('\'' :: (escapeQuotes s).data) ++ ['\'']) : List Char).take
          ((escapeQuotes s).data.length + 1)
        = '\'' :: (escapeQuotes s).data from by
      rw [show (escapeQuotes s).data.length + 1 = ('\'' :: (escapeQuotes s).data).length from by
        simp]
      exact List.take_left _ _]
    rw [show (('\'' :: (escapeQuotes s).data).drop 1) = (escapeQuotes s).data from rfl]
    rw [unescapeQuotes_escapeQuotes s]

/-- `parseCard` recovers the key and the exact value text from a formatted
well-formed card. -/
theorem parseCard_formatCard (k : String) (v : Option FitsValue) (c : Option String)
    (hk : goodKey k = true) (hv : goodValue v = true) (hc : goodComment v c = true) :
    ∃ com, parseCard (FitsHeader.formatCard k v c) = (k, ⟨valueTextChars v⟩, com) := by
  obtain ⟨hne, hlen8, hchars, hcom, hhis, _h3⟩ := goodKey_spec hk
  obtain ⟨m2, tl2, hvac, hcase⟩ := formatCard_vac k v c hk hv hc
  unfold parseCard
  rw [formatCard_key k v c hk hv hc]
  rw [if_neg (show ¬ ((k = "COMMENT" || k = "HISTORY") = true) by simp [hcom, hhis])]
  rw [formatCard_eqIdx k v c hk hv hc]
  dsimp only
  rw [show (8 : Nat) + 1 = 9 from rfl]
  rcases hcase with ⟨hm2, htl2⟩ | ⟨tl, htl2⟩
  · subst hm2
    subst htl2
    have hv2 : (jsTrim (jsDrop (FitsHeader.formatCard k v c) 9)).data = valueTextChars v := by
      rw [hvac]
      simp
    have hidx : jsIndexOfChar (jsTrim (jsDrop (FitsHeader.formatCard k v c) 9)) '/' = none := by
      unfold jsIndexOfChar
      rw [hv2]
      exact idxOf?_not_mem (valueTextChars_no_slash v hv)
    rw [hidx]
    refine ⟨none, ?_⟩
    have htr : jsTrim (jsTrim (jsDrop (FitsHeader.formatCard k v c) 9))
        = ⟨valueTextChars v⟩ := by
      rw [show jsTrim (jsDrop (FitsHeader.formatCard k v c) 9)
          = ⟨(jsTrim (jsDrop (FitsHeader.formatCard k v c) 9)).data⟩ from rfl, hv2]
      exact jsTrim_of_clean (valueTextChars v)
        (valueTextChars_head v hv) (valueTextChars_last v hv)
    rw [htr]
  · subst htl2
    have hidx : jsIndexOfChar (jsTrim (jsDrop (FitsHeader.formatCard k v c) 9)) '/'
        = some ((valueTextChars v ++ List.replicate m2 ' ').length) := by
      unfold jsIndexOfChar
      rw [hvac]
      rw [idxOf?_append_right]
      · rw [idxOf?_cons_self]
        simp
      · intro x hx
        rcases List.mem_append.mp hx with h | h
        · exact valueTextChars_no_slash v hv x h
        · have hx' : x = ' ' := List.eq_of_mem_replicate h
          subst hx'
          decide
    rw [hidx]
    refine ⟨some (jsTrim (jsDrop (jsTrim (jsDrop (FitsHeader.formatCard k v c) 9))
      ((valueTextChars v ++ List.replicate m2 ' ').length + 1))), ?_⟩
    dsimp only
    have htake : jsTake (jsTrim (jsDrop (FitsHeader.formatCard k v c) 9))
          ((valueTextChars v ++ List.replicate m2 ' ').length)
        = ⟨valueTextChars v ++ List.replicate m2 ' '⟩ := by
      unfold jsTake
      rw [hvac]
      rw [List.take_left]
    rw [htake]
    have htr : jsTrim (⟨valueTextChars v ++ List.replicate m2 ' '⟩ : String)
        = ⟨valueTextChars v⟩ :=
      jsTrim_padded 0 m2 (valueTextChars v)
        (valueTextChars_head v hv) (valueTextChars_last v hv)
    rw [htr]

/-! ## Store lemmas for the build layer -/

theorem goodCard_parts {cd : Card} (h : goodCard cd = true) :
    goodKey cd.key = true ∧ goodValue cd.value = true ∧
    goodComment cd.value cd.comment = true := by
  simp only [goodCard, Bool.and_eq_true] at h
  exact ⟨h.1.1, h.1.2, h.2⟩

theorem goodKey_ne_empty {k : String} (hk : goodKey k = true) : k ≠ "" := by
  intro he
  exact (goodKey_spec hk).1 (by rw [he])

theorem mapFind_setCore_ne (h : FitsHeader) (k k' : String) (v : Option FitsValue)
    (c : Option String) (hne : k' ≠ k) :
    (h.setCore k v c).mapFind k' = h.mapFind k' := by
  unfold FitsHeader.setCore
  cases hfind : h.mapFind k with
  | some mc =>
    unfold FitsHeader.mapFind
    have : ∀ (l : List (String × MapCard)),
        (l.map (fun p => if p.1 = k then
            (p.1, (⟨v, match c with | some cc => some cc | none => p.2.comment⟩ : MapCard))
          else p)).find? (fun p => p.1 = k')
        = l.find? (fun p => p.1 = k') := by
      intro l
      induction l with
      | nil => rfl
      | cons a t ih =>
        by_cases hak : a.1 = k
        · have hak' : ¬ (a.1 = k') := by rw [hak]; exact fun he => hne he.symm
          rw [List.map_cons, if_pos hak]
          rw [List.find?_cons_of_neg _ (by simpa using hak')]
          rw [List.find?_cons_of_neg _ (by simpa using hak')]
          exact ih
        · by_cases hak2 : a.1 = k'
          · rw [List.map_cons, if_neg hak, List.find?_cons_of_pos _ (by simpa using hak2),
              List.find?_cons_of_pos _ (by simpa using hak2)]
          · rw [List.map_cons, if_neg hak, List.find?_cons_of_neg _ (by simpa using hak2),
              List.find?_cons_of_neg _ (by simpa using hak2)]
            exact ih
    simp [this]
  | none =>
    unfold FitsHeader.mapFind
    rw [List.find?_append]
    have h2 : ([(k, (⟨v, c⟩ : MapCard))].find? (fun p => p.1 = k')) = none := by
      have hkk : ¬ ((k : String) = k') := fun he => hne he.symm
      simp [hkk]
    rw [h2]
    cases h.cards.find? (fun p => p.1 = k') <;> rfl

theorem get_setCore_ne (h : FitsHeader) (k k' : String) (v : Option FitsValue)
    (c : Option String) (hne : k' ≠ k) :
    (h.setCore k v c).get k' = h.get k' := by
  unfold FitsHeader.get
  rw [mapFind_setCore_ne h k k' v c hne]

theorem get_some_mapFind {h : FitsHeader} {k : String} {x : FitsValue}
    (hg : h.get k = some x) : h.mapFind k ≠ none := by
  intro he
  unfold FitsHeader.get at hg
  rw [he] at hg
  exact Option.noConfusion hg

theorem get_synced (h : FitsHeader) (hs : syncedHeader h) (key : String) :
    h.get key = (h.cardList.find? (fun cd => cd.key = key)).bind Card.value := by
  unfold FitsHeader.get FitsHeader.mapFind
  rw [hs]
  generalize h.cardList = l
  induction l with
  | nil => rfl
  | cons a t ih =>
    by_cases hk : a.key = key
    · rw [List.map_cons,
        List.find?_cons_of_pos _ (by simpa using hk),
        List.find?_cons_of_pos _ (by simpa using hk)]
      rfl
    · rw [List.map_cons,
        List.find?_cons_of_neg _ (by simpa using hk),
        List.find?_cons_of_neg _ (by simpa using hk)]
      exact ih

theorem forall2_map_key {l1 l2 : List Card}
    (h : List.Forall₂ (fun x y => x.key = y.key ∧ x.value = y.value) l1 l2) :
    l1.map (fun cd => cd.key) = l2.map (fun cd => cd.key) := by
  induction h with
  | nil => rfl
  | cons hab htail ih => simp only [List.map_cons, hab.1, ih]

theorem forall2_lookup {l1 l2 : List Card}
    (h : List.Forall₂ (fun x y => x.key = y.key ∧ x.value = y.value) l1 l2) (key : String) :
    (l1.find? (fun cd => cd.key = key)).bind Card.value
      = (l2.find? (fun cd => cd.key = key)).bind Card.value := by
  induction h with
  | nil => rfl
  | cons hab htail ih =>
    rename_i a b t1 t2
    by_cases hk : a.key = key
    · rw [List.find?_cons_of_pos _ (by simpa using hk),
        List.find?_cons_of_pos _ (by simpa using (hab.1 ▸ hk : b.key = key))]
      exact hab.2
    · rw [List.find?_cons_of_neg _ (by simpa using hk),
        List.find?_cons_of_neg _ (by
          simpa using (show ¬ b.key = key from fun he => hk (hab.1 ▸ he)))]
      exact ih

theorem extFold_no_xtension (L : List Card)
    (h : ∀ cd ∈ L, cd.key ≠ "XTENSION") (E0 : Option String) :
    L.foldl (fun E cd => if cd.key = "XTENSION" then
        some (match cd.value with
              | some (.vstr s) => removeQuotes s
              | v => jsTemplString v) else E) E0 = E0 := by
  induction L generalizing E0 with
  | nil => rfl
  | cons a t ih =>
    rw [List.foldl_cons, if_neg (h a (List.mem_cons_self a t))]
    exact ih (fun cd hcd => h cd (List.mem_cons_of_mem a hcd)) E0

theorem extFold_unique (L : List Card) (cd0 : Card)
    (hnd : (L.map (fun cd => cd.key)).Nodup)
    (hfind : L.find? (fun cd => cd.key = "XTENSION") = some cd0) (E0 : Option String) :
    L.foldl (fun E cd => if cd.key = "XTENSION" then
        some (match cd.value with
              | some (.vstr s) => removeQuotes s
              | v => jsTemplString v) else E) E0
      = some (match cd0.value with
              | some (.vstr s) => removeQuotes s
              | v => jsTemplString v) := by
  induction L generalizing E0 with
  | nil => exact absurd hfind (by simp)
  | cons a t ih =>
    by_cases hk : a.key = "XTENSION"
    · rw [List.find?_cons_of_pos _ (by simpa using hk)] at hfind
      have ha0 : a = cd0 := by simpa using hfind
      subst ha0
      rw [List.foldl_cons, if_pos hk]
      apply extFold_no_xtension
      intro cd hcd he
      rw [List.map_cons] at hnd
      have := (List.nodup_cons.mp hnd).1
      exact this (by rw [hk, ← he]; exact List.mem_map_of_mem _ hcd)
    · rw [List.find?_cons_of_neg _ (by simpa using hk)] at hfind
      rw [List.foldl_cons, if_neg hk]
      rw [List.map_cons] at hnd
      exact ih (List.nodup_cons.mp hnd).2 hfind E0

/-- Folding the formatted records of fresh, well-formed, uniquely keyed
cards into a header appends aligned cards and tracks the XTENSION value. -/
theorem buildFold (L : List Card) :
    ∀ (H0 : FitsHeader) (E0 : Option String),
    (∀ cd ∈ L, goodCard cd = true) →
    (∀ cd ∈ L, H0.mapFind cd.key = none) →
    (L.map (fun cd => cd.key)).Nodup →
    ∃ suf,
      (L.map (fun cd => FitsHeader.formatCard cd.key cd.value cd.comment)).foldl
          buildStep (H0, E0)
        = (⟨H0.cardList ++ suf, H0.cards ++ suf.map (fun cd => (cd.key,
              (⟨cd.value, cd.comment⟩ : MapCard)))⟩,
           L.foldl (fun E cd => if cd.key = "XTENSION" then
               some (match cd.value with
                     | some (.vstr s) => removeQuotes s
                     | v => jsTemplString v) else E) E0) ∧
      List.Forall₂ (fun x y => x.key = y.key ∧ x.value = y.value) suf L := by
  induction L with
  | nil =>
    intro H0 E0 _ _ _
    refine ⟨[], ?_, List.Forall₂.nil⟩
    simp
  | cons cd T ih =>
    intro H0 E0 hgood hfresh hnd
    obtain ⟨hk, hv, hc⟩ := goodCard_parts (hgood cd (List.mem_cons_self cd T))
    obtain ⟨com, hpc⟩ := parseCard_formatCard cd.key cd.value cd.comment hk hv hc
    rw [List.map_cons, List.foldl_cons]
    have hstep : buildStep (H0, E0) (FitsHeader.formatCard cd.key cd.value cd.comment)
        = (⟨H0.cardList ++ [⟨cd.key, cd.value, com⟩],
            H0.cards ++ [(cd.key, ⟨cd.value, com⟩)]⟩,
           if cd.key = "XTENSION" then
             some (match cd.value with
                   | some (.vstr s) => removeQuotes s
                   | v => jsTemplString v) else E0) := by
      unfold buildStep
      rw [hpc]
      dsimp only
      rw [if_neg (goodKey_ne_empty hk)]
      rw [if_neg ((goodKey_spec hk).2.2.2.1)]
      rw [if_neg ((goodKey_spec hk).2.2.2.2.1)]
      rw [parseValue_valueText cd.value hv]
      unfold FitsHeader.setCore
      rw [hfresh cd (List.mem_cons_self cd T)]
    rw [hstep]
    have hfresh' : ∀ x ∈ T, (⟨H0.cardList ++ [⟨cd.key, cd.value, com⟩],
        H0.cards ++ [(cd.key, ⟨cd.value, com⟩)]⟩ : FitsHeader).mapFind x.key = none := by
      intro x hx
      unfold FitsHeader.mapFind
      dsimp only
      rw [List.find?_append]
      have h1 : H0.cards.find? (fun p => p.1 = x.key) = none := by
        have hfx := hfresh x (List.mem_cons_of_mem cd hx)
        unfold FitsHeader.mapFind at hfx
        cases hf : H0.cards.find? (fun p => p.1 = x.key) with
        | none => rfl
        | some p => rw [hf] at hfx; exact absurd hfx (by simp)
      rw [h1]
      have hxk : ¬ ((cd.key : String) = x.key) := by
        rw [List.map_cons] at hnd
        intro he
        exact (List.nodup_cons.mp hnd).1 (he ▸ List.mem_map_of_mem _ hx)
      simp [hxk]
    rw [List.map_cons] at hnd
    obtain ⟨suf, hfold, hal⟩ :=
      ih ⟨H0.cardList ++ [⟨cd.key, cd.value, com⟩],
          H0.cards ++ [(cd.key, ⟨cd.value, com⟩)]⟩
        (if cd.key = "XTENSION" then
           some (match cd.value with
                 | some (.vstr s) => removeQuotes s
                 | v => jsTemplString v) else E0)
        (fun x hx => hgood x (List.mem_cons_of_mem cd hx))
        hfresh' (List.nodup_cons.mp hnd).2
    refine ⟨⟨cd.key, cd.value, com⟩ :: suf, ?_, List.Forall₂.cons ⟨rfl, rfl⟩ hal⟩
    rw [hfold, List.foldl_cons]
    dsimp only
    congr 1
    congr 1
    · simp
    · simp

/-! ## Scan layer: reading encoded records until END -/

theorem formatCard_length80 (k : String) (v : Option FitsValue) (c : Option String)
    (hk : goodKey k = true) (hv : goodValue v = true) (hc : goodComment v c = true) :
    (FitsHeader.formatCard k v c).data.length = 80 := by
  obtain ⟨a, m, rest, _hd, _hr, hlen⟩ := formatCard_shape k v c hk hv hc
  exact hlen

theorem writeRecord80_of_len80 (r : String) (h : r.data.length = 80) :
    writeRecord80 r = r.data := by
  unfold writeRecord80
  rw [List.take_of_length_le (by omega), h]
  simp

theorem readCard_at (pre rec rest : List Char) (hlen : rec.length = 80) :
    readCard (pre ++ rec ++ rest) pre.length = .ok (⟨rec⟩, pre.length + 80) := by
  unfold readCard
  rw [if_pos (by
    simp only [bufLen_eq, List.length_append]
    omega)]
  rw [show pre ++ rec ++ rest = pre ++ (rec ++ rest) from List.append_assoc _ _ _]
  rw [List.drop_left]
  rw [show (80 : Nat) = rec.length from hlen.symm, List.take_left]

theorem readHeaderCardsAux_encoded (L : List Card) :
    ∀ (buf pre rest : List Char) (acc : List String) (fuel : Nat),
    (∀ cd ∈ L, goodCard cd = true) →
    buf = pre ++ (L.map (fun cd =>
        (FitsHeader.formatCard cd.key cd.value cd.comment).data)).flatten
      ++ ((FitsHeader.formatCard "END" none none).data ++ rest) →
    L.length + 1 ≤ fuel →
    readHeaderCardsAux buf fuel pre.length acc
      = .ok (acc.reverse ++ L.map (fun cd =>
          FitsHeader.formatCard cd.key cd.value cd.comment)) := by
  induction L with
  | nil =>
    intro buf pre rest acc fuel _hgood hbuf hfuel
    obtain ⟨f, rfl⟩ : ∃ f, fuel = f + 1 := ⟨fuel - 1, by omega⟩
    have hrc : readCard buf pre.length
        = .ok (⟨(FitsHeader.formatCard "END" none none).data⟩, pre.length + 80) := by
      rw [hbuf]
      simp only [List.map_nil, List.flatten_nil, List.append_nil]
      rw [← List.append_assoc]
      exact readCard_at pre _ _ (by decide)
    unfold readHeaderCardsAux
    rw [hrc]
    dsimp only
    rw [if_pos (by decide :
      jsStartsWith (jsTrim (FitsHeader.formatCard "END" none none)) "END" = true)]
    simp
  | cons cd T ih =>
    intro buf pre rest acc fuel hgood hbuf hfuel
    obtain ⟨f, rfl⟩ : ∃ f, fuel = f + 1 := ⟨fuel - 1, by omega⟩
    obtain ⟨hk, hv, hc⟩ := goodCard_parts (hgood cd (List.mem_cons_self cd T))
    have hlen80 := formatCard_length80 cd.key cd.value cd.comment hk hv hc
    have hrc : readCard buf pre.length
        = .ok (⟨(FitsHeader.formatCard cd.key cd.value cd.comment).data⟩,
               pre.length + 80) := by
      rw [hbuf, List.map_cons, List.flatten_cons]
      rw [show pre ++ ((FitsHeader.formatCard cd.key cd.value cd.comment).data ++
            (T.map (fun x => (FitsHeader.formatCard x.key x.value x.comment).data)).flatten)
          ++ ((FitsHeader.formatCard "END" none none).data ++ rest)
        = pre ++ (FitsHeader.formatCard cd.key cd.value cd.comment).data ++
            ((T.map (fun x => (FitsHeader.formatCard x.key x.value x.comment).data)).flatten
              ++ ((FitsHeader.formatCard "END" none none).data ++ rest)) from by
        simp [List.append_assoc]]
      exact readCard_at pre _ _ hlen80
    unfold readHeaderCardsAux
    rw [hrc]
    dsimp only
    rw [show (⟨(FitsHeader.formatCard cd.key cd.value cd.comment).data⟩ : String)
        = FitsHeader.formatCard cd.key cd.value cd.comment from rfl]
    rw [if_neg (by
      rw [formatCard_trim_not_END cd.key cd.value cd.comment hk hv hc]
      exact Bool.false_ne_true)]
    rw [formatCard_key cd.key cd.value cd.comment hk hv hc]
    rw [if_neg (by
      have h1 := (goodKey_spec hk).2.2.2.1
      have h2 := (goodKey_spec hk).2.2.2.2.1
      simp [h1, h2])]
    have hres := ih buf (pre ++ (FitsHeader.formatCard cd.key cd.value cd.comment).data)
      rest (FitsHeader.formatCard cd.key cd.value cd.comment :: acc) f
      (fun x hx => hgood x (List.mem_cons_of_mem cd hx))
      (by rw [hbuf]; simp [List.append_assoc])
      (by simp at hfuel ⊢; omega)
    rw [show pre.length + 80
        = (pre ++ (FitsHeader.formatCard cd.key cd.value cd.comment).data).length from by
      simp [hlen80]]
    rw [hres]
    simp

/-! ## Header layer: the encoded block of a well-formed header -/

theorem toRecords_wf (h : FitsHeader)
    (hgood : ∀ cd ∈ h.cardList, goodCard cd = true) (hne : h.cardList ≠ []) :
    h.toRecords = (h.cardList.map (fun cd =>
        FitsHeader.formatCard cd.key cd.value cd.comment)
        ++ [FitsHeader.formatCard "END" none none])
      ++ List.replicate ((36 - (h.cardList.length + 1) % 36) % 36)
          FitsHeader.blankRecord := by
  unfold FitsHeader.toRecords
  dsimp only
  have hrne : h.cardList.map (fun cd =>
      FitsHeader.formatCard cd.key cd.value cd.comment) ≠ [] := by
    simpa using hne
  cases hg : (h.cardList.map (fun cd =>
      FitsHeader.formatCard cd.key cd.value cd.comment)).getLast? with
  | none => exact absurd (List.getLast?_eq_none_iff.mp hg) hrne
  | some last =>
    have hmem := List.mem_of_mem_getLast? hg
    obtain ⟨cd, hcd, hfmt⟩ := List.mem_map.mp hmem
    obtain ⟨hk, hv, hc⟩ := goodCard_parts (hgood cd hcd)
    dsimp only
    rw [if_neg (by
      rw [← hfmt, formatCard_not_END cd.key cd.value cd.comment hk hv hc]
      exact Bool.false_ne_true)]
    simp [List.length_append, List.length_map]

theorem flatMap_records (L : List Card) (hgood : ∀ cd ∈ L, goodCard cd = true) :
    (L.map (fun cd => FitsHeader.formatCard cd.key cd.value cd.comment)).flatMap
        writeRecord80
      = (L.map (fun cd =>
          (FitsHeader.formatCard cd.key cd.value cd.comment).data)).flatten := by
  induction L with
  | nil => rfl
  | cons cd T ih =>
    obtain ⟨hk, hv, hc⟩ := goodCard_parts (hgood cd (List.mem_cons_self cd T))
    rw [List.map_cons, List.flatMap_cons, List.map_cons, List.flatten_cons]
    rw [writeRecord80_of_len80 _ (formatCard_length80 cd.key cd.value cd.comment hk hv hc)]
    rw [ih (fun x hx => hgood x (List.mem_cons_of_mem cd hx))]

theorem flatten_records_length (L : List Card) (hgood : ∀ cd ∈ L, goodCard cd = true) :
    (L.map (fun cd =>
      (FitsHeader.formatCard cd.key cd.value cd.comment).data)).flatten.length
      = 80 * L.length := by
  induction L with
  | nil => rfl
  | cons cd T ih =>
    obtain ⟨hk, hv, hc⟩ := goodCard_parts (hgood cd (List.mem_cons_self cd T))
    rw [List.map_cons, List.flatten_cons, List.length_append,
      formatCard_length80 cd.key cd.value cd.comment hk hv hc,
      ih (fun x hx => hgood x (List.mem_cons_of_mem cd hx))]
    simp only [List.length_cons]
    ring

theorem flatMap_blanks (b : Nat) :
    (List.replicate b FitsHeader.blankRecord).flatMap writeRecord80
      = List.replicate (b * 80) ' ' := by
  induction b with
  | zero => rfl
  | succ n ih =>
    rw [List.replicate_succ, List.flatMap_cons, ih]
    rw [show writeRecord80 FitsHeader.blankRecord = List.replicate 80 ' ' from by decide]
    rw [← List.replicate_add]
    congr 1
    ring

theorem headerBlock_eq (h : FitsHeader)
    (hgood : ∀ cd ∈ h.cardList, goodCard cd = true) (hne : h.cardList ≠ []) :
    headerBlock h
      = (h.cardList.map (fun cd =>
          (FitsHeader.formatCard cd.key cd.value cd.comment).data)).flatten
        ++ ((FitsHeader.formatCard "END" none none).data
          ++ List.replicate (((36 - (h.cardList.length + 1) % 36) % 36) * 80) ' ') := by
  unfold headerBlock
  rw [toRecords_wf h hgood hne]
  rw [List.flatMap_append, List.flatMap_append]
  rw [flatMap_records _ hgood, flatMap_blanks]
  rw [show ([FitsHeader.formatCard "END" none none].flatMap writeRecord80)
      = (FitsHeader.formatCard "END" none none).data from by decide]
  rw [List.append_assoc]

theorem headerBlock_length (h : FitsHeader)
    (hgood : ∀ cd ∈ h.cardList, goodCard cd = true) (hne : h.cardList ≠ []) :
    (headerBlock h).length
      = 80 * (h.cardList.length + 1 + (36 - (h.cardList.length + 1) % 36) % 36) := by
  rw [headerBlock_eq h hgood hne]
  simp only [List.length_append, List.length_replicate,
    flatten_records_length h.cardList hgood]
  have hendlen : (FitsHeader.formatCard "END" none none).data.length = 80 := by decide
  rw [hendlen]
  ring

theorem computeDataBytes_zero (H : FitsHeader)
    (hna : H.get "NAXIS" = none ∨ H.get "NAXIS" = some (.vint 0)) :
    computeDataBytes H = some 0 := by
  unfold computeDataBytes
  rcases hna with hna | hna
  · rw [hna]
    rfl
  · rw [hna]
    rfl

theorem readHeaderCards_encoded (pre post : List Char) (h : FitsHeader)
    (hgood : ∀ cd ∈ h.cardList, goodCard cd = true) (hne : h.cardList ≠ []) :
    readHeaderCards (pre ++ headerBlock h ++ post) pre.length
      = .ok (h.cardList.map (fun cd =>
          FitsHeader.formatCard cd.key cd.value cd.comment)) := by
  unfold readHeaderCards
  have hbuf : pre ++ headerBlock h ++ post
      = pre ++ (h.cardList.map (fun cd =>
          (FitsHeader.formatCard cd.key cd.value cd.comment).data)).flatten
        ++ ((FitsHeader.formatCard "END" none none).data
          ++ (List.replicate (((36 - (h.cardList.length + 1) % 36) % 36) * 80) ' '
            ++ post)) := by
    rw [headerBlock_eq h hgood hne]
    simp [List.append_assoc]
  have hfuel : h.cardList.length + 1
      ≤ bufLen (pre ++ headerBlock h ++ post) / 80 + 1 := by
    simp only [bufLen_eq, List.length_append]
    rw [headerBlock_length h hgood hne]
    omega
  have := readHeaderCardsAux_encoded h.cardList (pre ++ headerBlock h ++ post)
    pre (List.replicate (((36 - (h.cardList.length + 1) % 36) % 36) * 80) ' ' ++ post)
    [] (bufLen (pre ++ headerBlock h ++ post) / 80 + 1) hgood hbuf hfuel
  simpa using this

/-- Decoding a primary header block recovers the keys and values of the
original header, with a zero data length. -/
theorem parseHeaderAt_encoded_primary (pre post : List Char) (h : FitsHeader)
    (hwf : wfHeader h) (hsz : shapeZero h)
    (hfirst : h.keys.head? = some "SIMPLE")
    (hnoxt : h.mapFind "XTENSION" = none)
    (hpre : pre.length = 0) :
    ∃ H', parseHeaderAt (pre ++ headerBlock h ++ post) pre.length
        = .ok ⟨H', (headerBlock h).length, some 0, none⟩ ∧
      H'.keys = h.keys ∧ (∀ key, H'.get key = h.get key) := by
  obtain ⟨hsync, hnodup, hgood, hmod⟩ := hwf
  have hne : h.cardList ≠ [] := by
    intro he
    rw [he] at hmod
    simp at hmod
  have hnodup' : (h.cardList.map (fun cd => cd.key)).Nodup := hnodup
  obtain ⟨suf, hfold, hal⟩ := buildFold h.cardList FitsHeader.empty none hgood
    (fun cd _hcd => rfl) hnodup'
  have hfold' : buildHeaderFromCards (h.cardList.map (fun cd =>
      FitsHeader.formatCard cd.key cd.value cd.comment))
      = ((⟨suf, suf.map (fun cd => (cd.key, ⟨cd.value, cd.comment⟩))⟩ : FitsHeader),
         h.cardList.foldl (fun E cd => if cd.key = "XTENSION" then
             some (match cd.value with
                   | some (.vstr s) => removeQuotes s
                   | v => jsTemplString v) else E) none) := hfold
  have hsync' : syncedHeader (⟨suf, suf.map (fun cd =>
      (cd.key, ⟨cd.value, cd.comment⟩))⟩ : FitsHeader) := rfl
  have hkeys : (⟨suf, suf.map (fun cd =>
      (cd.key, ⟨cd.value, cd.comment⟩))⟩ : FitsHeader).keys = h.keys :=
    forall2_map_key hal
  have hget : ∀ key, (⟨suf, suf.map (fun cd =>
      (cd.key, ⟨cd.value, cd.comment⟩))⟩ : FitsHeader).get key = h.get key := by
    intro key
    rw [get_synced _ hsync' key, get_synced h hsync key]
    exact forall2_lookup hal key
  have hnox : ∀ cd ∈ h.cardList, cd.key ≠ "XTENSION" := by
    intro cd hcd he
    unfold FitsHeader.mapFind at hnoxt
    have hfn : h.cards.find? (fun p => p.1 = "XTENSION") = none := by
      cases hf : h.cards.find? (fun p => p.1 = "XTENSION") with
      | none => rfl
      | some p => rw [hf] at hnoxt; exact absurd hnoxt (by simp)
    have hmem : (cd.key, (⟨cd.value, cd.comment⟩ : MapCard)) ∈ h.cards := by
      rw [hsync]
      exact List.mem_map_of_mem _ hcd
    have := List.find?_eq_none.mp hfn _ hmem
    simp only [decide_eq_true_eq] at this
    exact this he
  have hE : h.cardList.foldl (fun E cd => if cd.key = "XTENSION" then
      some (match cd.value with
            | some (.vstr s) => removeQuotes s
            | v => jsTemplString v) else E) none = none :=
    extFold_no_xtension _ hnox none
  have hna : (⟨suf, suf.map (fun cd =>
      (cd.key, ⟨cd.value, cd.comment⟩))⟩ : FitsHeader).get "NAXIS" = none ∨
      (⟨suf, suf.map (fun cd =>
      (cd.key, ⟨cd.value, cd.comment⟩))⟩ : FitsHeader).get "NAXIS" = some (.vint 0) := by
    rcases hsz with hz | hz
    · left; rw [hget, hz]
    · right; rw [hget, hz]
  refine ⟨⟨suf, suf.map (fun cd => (cd.key, ⟨cd.value, cd.comment⟩))⟩, ?_, hkeys, hget⟩
  unfold parseHeaderAt
  rw [readHeaderCards_encoded pre post h hgood hne]
  dsimp only
  rw [hfold']
  dsimp only
  rw [hpre]
  rw [if_neg (by
    rw [hkeys, hfirst]
    simp)]
  rw [if_neg (by simp)]
  rw [if_neg (by simp)]
  rw [hE, computeDataBytes_zero _ hna]
  rw [List.length_map]
  rw [show ((h.cardList.length + 35) / 36) * 2880 = (headerBlock h).length from by
    rw [headerBlock_length h hgood hne]
    omega]

/-- Decoding an extension header block recovers the keys and values of the
original header (the `EXTEND = true` injection overwrites the equal value
already present), with a zero data length and the XTENSION tag. -/
theorem parseHeaderAt_encoded_ext (pre post : List Char) (h : FitsHeader)
    (hwf : wfHeader h) (hsz : shapeZero h)
    (hfirst : h.keys.head? = some "XTENSION") (s : String)
    (hxt : h.get "XTENSION" = some (.vstr s))
    (hq : s.data.all (fun ch => ch ≠ '\'') = true)
    (hext : h.get "EXTEND" = some (.vbool true))
    (hpre : pre.length ≠ 0) :
    ∃ H', parseHeaderAt (pre ++ headerBlock h ++ post) pre.length
        = .ok ⟨H', (headerBlock h).length, some 0, some s⟩ ∧
      H'.keys = h.keys ∧ (∀ key, H'.get key = h.get key) := by
  obtain ⟨hsync, hnodup, hgood, hmod⟩ := hwf
  have hne : h.cardList ≠ [] := by
    intro he
    rw [he] at hmod
    simp at hmod
  have hnodup' : (h.cardList.map (fun cd => cd.key)).Nodup := hnodup
  obtain ⟨suf, hfold, hal⟩ := buildFold h.cardList FitsHeader.empty none hgood
    (fun cd _hcd => rfl) hnodup'
  have hfold' : buildHeaderFromCards (h.cardList.map (fun cd =>
      FitsHeader.formatCard cd.key cd.value cd.comment))
      = ((⟨suf, suf.map (fun cd => (cd.key, ⟨cd.value, cd.comment⟩))⟩ : FitsHeader),
         h.cardList.foldl (fun E cd => if cd.key = "XTENSION" then
             some (match cd.value with
                   | some (.vstr s) => removeQuotes s
                   | v => jsTemplString v) else E) none) := hfold
  have hsync' : syncedHeader (⟨suf, suf.map (fun cd =>
      (cd.key, ⟨cd.value, cd.comment⟩))⟩ : FitsHeader) := rfl
  have hkeys : (⟨suf, suf.map (fun cd =>
      (cd.key, ⟨cd.value, cd.comment⟩))⟩ : FitsHeader).keys = h.keys :=
    forall2_map_key hal
  have hget : ∀ key, (⟨suf, suf.map (fun cd =>
      (cd.key, ⟨cd.value, cd.comment⟩))⟩ : FitsHeader).get key = h.get key := by
    intro key
    rw [get_synced _ hsync' key, get_synced h hsync key]
    exact forall2_lookup hal key
  -- the XTENSION card and the extension-type fold
  have hlook : (h.cardList.find? (fun cd => cd.key = "XTENSION")).bind Card.value
      = some (.vstr s) := by
    rw [← get_synced h hsync]
    exact hxt
  obtain ⟨cd0, hfind, hval⟩ : ∃ cd0,
      h.cardList.find? (fun cd => cd.key = "XTENSION") = some cd0 ∧
      cd0.value = some (.vstr s) := by
    cases hf : h.cardList.find? (fun cd => cd.key = "XTENSION") with
    | none => rw [hf] at hlook; exact absurd hlook (by simp)
    | some cd0 =>
      rw [hf] at hlook
      exact ⟨cd0, rfl, hlook⟩
  have hrq : removeQuotes s = s := by
    unfold removeQuotes
    rw [List.filter_eq_self.mpr]
    intro a ha
    exact List.all_eq_true.mp hq a ha
  have hE : h.cardList.foldl (fun E cd => if cd.key = "XTENSION" then
      some (match cd.value with
            | some (.vstr s) => removeQuotes s
            | v => jsTemplString v) else E) none = some s := by
    rw [extFold_unique h.cardList cd0 hnodup' hfind none, hval]
    dsimp only
    rw [hrq]
  -- the decoded header after the EXTEND injection
  have hmf : (⟨suf, suf.map (fun cd =>
      (cd.key, ⟨cd.value, cd.comment⟩))⟩ : FitsHeader).mapFind "EXTEND" ≠ none :=
    get_some_mapFind (x := .vbool true) (by rw [hget]; exact hext)
  have hkeys2 : ((⟨suf, suf.map (fun cd =>
      (cd.key, ⟨cd.value, cd.comment⟩))⟩ : FitsHeader).setCore "EXTEND"
        (some (.vbool true)) none).keys = h.keys := by
    rw [FitsHeader.keys_setCore_of_mem _ _ _ _ hmf]
    exact hkeys
  have hget2 : ∀ key, ((⟨suf, suf.map (fun cd =>
      (cd.key, ⟨cd.value, cd.comment⟩))⟩ : FitsHeader).setCore "EXTEND"
        (some (.vbool true)) none).get key = h.get key := by
    intro key
    by_cases hke : key = "EXTEND"
    · subst hke
      rw [FitsHeader.get_setCore_self, hext]
    · rw [get_setCore_ne _ _ _ _ _ hke]
      exact hget key
  have hna : ((⟨suf, suf.map (fun cd =>
      (cd.key, ⟨cd.value, cd.comment⟩))⟩ : FitsHeader).setCore "EXTEND"
        (some (.vbool true)) none).get "NAXIS" = none ∨
      ((⟨suf, suf.map (fun cd =>
      (cd.key, ⟨cd.value, cd.comment⟩))⟩ : FitsHeader).setCore "EXTEND"
        (some (.vbool true)) none).get "NAXIS" = some (.vint 0) := by
    rcases hsz with hz | hz
    · left; rw [hget2, hz]
    · right; rw [hget2, hz]
  refine ⟨(⟨suf, suf.map (fun cd => (cd.key, ⟨cd.value, cd.comment⟩))⟩ :
      FitsHeader).setCore "EXTEND" (some (.vbool true)) none, ?_, hkeys2, hget2⟩
  unfold parseHeaderAt
  rw [readHeaderCards_encoded pre post h hgood hne]
  dsimp only
  rw [hfold']
  dsimp only
  rw [if_neg (by
    simp only [Bool.and_eq_true, decide_eq_true_eq]
    rintro ⟨h0, _⟩
    exact hpre h0)]
  rw [if_neg (by
    rw [hkeys, hfirst]
    simp)]
  rw [if_pos (by simpa using hpre)]
  rw [hE, computeDataBytes_zero _ hna]
  rw [List.length_map]
  rw [show ((h.cardList.length + 35) / 36) * 2880 = (headerBlock h).length from by
    rw [headerBlock_length h hgood hne]
    omega]

/-! ## Container layer -/

theorem getShape_congr (a b : FitsHDU) (hext : b.extType = a.extType)
    (hget : ∀ k, b.header.get k = a.header.get k) : b.getShape = a.getShape := by
  unfold FitsHDU.getShape
  rw [hext]
  simp only [hget]

theorem toArrayBuffer_dataless (f : Fits) (hd : ∀ hdu ∈ f.hdus, hdu.data = none) :
    Fits.toArrayBuffer f = (f.hdus.map (fun x => headerBlock x.header)).flatten := by
  unfold Fits.toArrayBuffer
  dsimp only
  have hblank : (f.hdus.map (fun hdu =>
      match hdu.data with
      | none => ([] : List Char)
      | some (.raw bytes) =>
        bytes ++ List.replicate ((2880 - bytes.length % 2880) % 2880) (Char.ofNat 0))).flatten
      = [] := by
    apply List.flatten_eq_nil_iff.mpr
    intro x hx
    obtain ⟨hdu, hhdu, hfx⟩ := List.mem_map.mp hx
    rw [hd hdu hhdu] at hfx
    exact hfx.symm
  rw [hblank, List.append_nil]
  rfl

theorem headerBlock_ge (h : FitsHeader)
    (hgood : ∀ cd ∈ h.cardList, goodCard cd = true) (hne : h.cardList ≠ []) :
    2880 ≤ (headerBlock h).length := by
  rw [headerBlock_length h hgood hne]
  omega

theorem ext_flat_ge (hdus : List FitsHDU) (hwf : ∀ e ∈ hdus, wfExtHDU e) :
    2880 * hdus.length ≤ ((hdus.map (fun x => headerBlock x.header)).flatten).length := by
  induction hdus with
  | nil => simp
  | cons e rest ih =>
    obtain ⟨_hd, ⟨_hs, _hn, hgood, hmod⟩, _⟩ := hwf e (List.mem_cons_self e rest)
    have hne : e.header.cardList ≠ [] := by
      intro hz
      rw [hz] at hmod
      simp at hmod
    have h1 := headerBlock_ge e.header hgood hne
    have h2 := ih (fun x hx => hwf x (List.mem_cons_of_mem e hx))
    rw [List.map_cons, List.flatten_cons, List.length_append]
    simp only [List.length_cons]
    omega

/-- The decoder loop over a run of encoded extension HDUs. -/
theorem parseHDUsAux_encoded (buf : List Char) (hdus : List FitsHDU) :
    ∀ (offset : Nat) (acc : List FitsHDU) (fuel : Nat),
    offset ≠ 0 →
    buf.length = offset + ((hdus.map (fun x => headerBlock x.header)).flatten).length →
    buf.drop offset = (hdus.map (fun x => headerBlock x.header)).flatten →
    (∀ e ∈ hdus, wfExtHDU e) →
    hdus.length + 1 ≤ fuel →
    ∃ decoded, parseHDUsAux buf fuel offset false acc = .ok (acc ++ decoded) ∧
      List.Forall₂ (fun x y => y.header.keys = x.header.keys ∧
        (∀ k, y.header.get k = x.header.get k) ∧ y.getShape = x.getShape)
        hdus decoded := by
  induction hdus with
  | nil =>
    intro offset acc fuel _h0 hlen hdrop _hwf hfuel
    obtain ⟨f, rfl⟩ : ∃ f, fuel = f + 1 := ⟨fuel - 1, by omega⟩
    refine ⟨[], ?_, List.Forall₂.nil⟩
    simp only [List.map_nil, List.flatten_nil, List.length_nil] at hlen
    unfold parseHDUsAux
    rw [if_neg (by simp only [bufLen_eq]; omega)]
    rw [List.append_nil]
  | cons e rest ih =>
    intro offset acc fuel h0 hlen hdrop hwf hfuel
    obtain ⟨f, rfl⟩ : ∃ f, fuel = f + 1 := ⟨fuel - 1, by omega⟩
    obtain ⟨hdata, hwfh, hsz, hfirst, ⟨s, hxt, hq, hextty⟩, hextend⟩ :=
      hwf e (List.mem_cons_self e rest)
    have hgood : ∀ cd ∈ e.header.cardList, goodCard cd = true := hwfh.2.2.1
    have hne : e.header.cardList ≠ [] := by
      intro hz
      have := hwfh.2.2.2
      rw [hz] at this
      simp at this
    rw [List.map_cons, List.flatten_cons] at hlen hdrop
    have hoffle : offset ≤ buf.length := by
      rw [hlen]
      omega
    have hplen : (buf.take offset).length = offset :=
      List.length_take_of_le hoffle
    have hbuf2 : buf = buf.take offset ++ headerBlock e.header
        ++ (rest.map (fun x => headerBlock x.header)).flatten := by
      conv_lhs => rw [← List.take_append_drop offset buf]
      rw [hdrop]
      rw [← List.append_assoc]
    obtain ⟨H', hph, hkeys, hget⟩ := parseHeaderAt_encoded_ext (buf.take offset)
      ((rest.map (fun x => headerBlock x.header)).flatten) e.header hwfh hsz hfirst
      s hxt hq hextend (by rw [hplen]; exact h0)
    rw [hplen, ← hbuf2] at hph
    have hbge := headerBlock_ge e.header hgood hne
    unfold parseHDUsAux
    rw [if_pos (by
      simp only [bufLen_eq]
      rw [hlen]
      simp only [List.length_append]
      omega)]
    rw [hph]
    dsimp only
    rw [if_neg (by norm_num : ¬ (0:Int) > 0)]
    dsimp only
    rw [show dataBlockSize 0 = 0 from by decide]
    rw [if_neg (by norm_num : ¬ (0:Int) < 0)]
    have hrec := ih (offset + (headerBlock e.header).length)
      (acc ++ [{ header := H', data := none, isPrimary := false, extType := some s }]) f
      (by omega)
      (by
        rw [hlen, List.length_append]
        omega)
      (by
        rw [hbuf2]
        rw [show buf.take offset ++ headerBlock e.header
            ++ (rest.map (fun x => headerBlock x.header)).flatten
          = (buf.take offset ++ headerBlock e.header)
            ++ (rest.map (fun x => headerBlock x.header)).flatten from rfl]
        rw [List.drop_left' (by
          simp only [List.length_append]
          rw [hplen])])
      (fun x hx => hwf x (List.mem_cons_of_mem e hx))
      (by simp only [List.length_cons] at hfuel; omega)
    obtain ⟨decoded, hrun, hall⟩ := hrec
    refine ⟨(⟨H', none, false, some s⟩ : FitsHDU) :: decoded,
      ?_, List.Forall₂.cons ⟨hkeys, hget, ?_⟩ hall⟩
    · rw [show (0:Int).toNat = 0 from rfl, Nat.add_zero]
      rw [hrun]
      simp
    · exact getShape_congr e (⟨H', none, false, some s⟩ : FitsHDU) (by rw [hextty]) hget

/-- C1 (amended): the round-trip claim fails as stated (see the
counterexample: a slash inside a string value is cut off by `parseCard`),
but holds for well-formed containers: data-less HDUs whose headers hold
uniquely keyed plain-ASCII cards without slashes in string values, with a
card count that is not a multiple of 36, `NAXIS` absent or 0, and the
SIMPLE/XTENSION/EXTEND structure the decoder validates. For every such
container, `fromArrayBuffer (toArrayBuffer f)` succeeds and every decoded
HDU has the same header keys in the same order, the same header value for
every key, and the same shape as the original. -/
theorem c1_roundtrip_wf (f : Fits) (hwf : wfContainer f) :
    ∃ f', Fits.fromArrayBuffer (Fits.toArrayBuffer f) = .ok f' ∧
      List.Forall₂ (fun x y => y.header.keys = x.header.keys ∧
        (∀ k, y.header.get k = x.header.get k) ∧ y.getShape = x.getShape)
        f.hdus f'.hdus := by
  cases hf : f.hdus with
  | nil =>
    refine ⟨⟨[]⟩, ?_, List.Forall₂.nil⟩
    have hb : Fits.toArrayBuffer f = [] := by
      unfold Fits.toArrayBuffer
      rw [hf]
      rfl
    rw [hb]
    rfl
  | cons p rest =>
    unfold wfContainer at hwf
    rw [hf] at hwf
    obtain ⟨hwp, hwrest⟩ := hwf
    obtain ⟨hdp, hwfh, hsz, hfirst, hnoxt, hexty⟩ := hwp
    have hgoodp : ∀ cd ∈ p.header.cardList, goodCard cd = true := hwfh.2.2.1
    have hnep : p.header.cardList ≠ [] := by
      intro hz
      have := hwfh.2.2.2
      rw [hz] at this
      simp at this
    have hdall : ∀ hdu ∈ f.hdus, hdu.data = none := by
      rw [hf]
      intro hdu hm
      rcases List.mem_cons.mp hm with h | h
      · subst h; exact hdp
      · exact (hwrest hdu h).1
    have hB : Fits.toArrayBuffer f
        = headerBlock p.header ++ (rest.map (fun x => headerBlock x.header)).flatten := by
      rw [toArrayBuffer_dataless f hdall, hf]
      rw [List.map_cons, List.flatten_cons]
    obtain ⟨H', hph, hkeys, hget⟩ := parseHeaderAt_encoded_primary []
      ((rest.map (fun x => headerBlock x.header)).flatten) p.header hwfh hsz hfirst
      hnoxt rfl
    have hph' : parseHeaderAt (Fits.toArrayBuffer f) 0
        = .ok ⟨H', (headerBlock p.header).length, some 0, none⟩ := by
      rw [hB]
      exact hph
    have hbge := headerBlock_ge p.header hgoodp hnep
    have hextlen := ext_flat_ge rest hwrest
    obtain ⟨decoded, hrun, hall⟩ := parseHDUsAux_encoded (Fits.toArrayBuffer f) rest
      (headerBlock p.header).length
      ([] ++ [(⟨H', none, true, none⟩ : FitsHDU)]) (bufLen (Fits.toArrayBuffer f) / 2880)
      (by omega)
      (by rw [hB, List.length_append])
      (by rw [hB]; exact List.drop_left _ _)
      hwrest
      (by
        simp only [bufLen_eq]
        rw [hB, List.length_append]
        omega)
    refine ⟨⟨(⟨H', none, true, none⟩ : FitsHDU) :: decoded⟩, ?_, ?_⟩
    · unfold Fits.fromArrayBuffer
      unfold parseHDUsAux
      rw [if_pos (by
        simp only [bufLen_eq]
        rw [hB, List.length_append]
        omega)]
      rw [hph']
      dsimp only
      rw [if_neg (by norm_num : ¬ (0:Int) > 0)]
      dsimp only
      rw [show dataBlockSize 0 = 0 from by decide]
      rw [if_neg (by norm_num : ¬ (0:Int) < 0)]
      rw [show (0:Int).toNat = 0 from rfl, Nat.add_zero, Nat.zero_add]
      rw [hrun]
      rfl
    · exact List.Forall₂.cons
        ⟨hkeys, hget, getShape_congr p (⟨H', none, true, none⟩ : FitsHDU)
          (by rw [hexty]) hget⟩ hall

/-- C1 (counterexample to the claim as stated): the container whose primary
header stores `OBJECT = 'A/B'` round-trips to `OBJECT = 'A'` — `parseCard`
splits the card at the first `/`, which here sits inside the quoted string —
so keys and shapes survive but the `OBJECT` value does not. -/
theorem c1_roundtrip_counterexample :
    slashContainer.hdus.map (fun h => h.header.get "OBJECT")
        = [some (.vstr "A/B")] ∧
    (Fits.fromArrayBuffer (Fits.toArrayBuffer slashContainer)).map
        (fun f => f.hdus.map (fun h => h.header.get "OBJECT"))
      = .ok [some (.vstr "A")] := by
  constructor
  · decide
  · decide

/-- The amended C1 theorem applied to a concrete well-formed one-card
container, its hypothesis discharged by evaluation. -/
theorem c1_roundtrip_wf_witness :
    wfContainer simpleContainer ∧
    ∃ f', Fits.fromArrayBuffer (Fits.toArrayBuffer simpleContainer) = .ok f' ∧
      List.Forall₂ (fun x y => y.header.keys = x.header.keys ∧
        (∀ k, y.header.get k = x.header.get k) ∧ y.getShape = x.getShape)
        simpleContainer.hdus f'.hdus :=
  ⟨by
    unfold wfContainer simpleContainer
    exact ⟨⟨by decide, ⟨rfl, by decide, by decide, by decide⟩,
      Or.inl (by decide), by decide, by decide, by decide⟩,
      fun e he => absurd he (List.not_mem_nil e)⟩,
   c1_roundtrip_wf simpleContainer (by
    unfold wfContainer simpleContainer
    exact ⟨⟨by decide, ⟨rfl, by decide, by decide, by decide⟩,
      Or.inl (by decide), by decide, by decide, by decide⟩,
      fun e he => absurd he (List.not_mem_nil e)⟩)⟩

/-! ## Claim theorems -/

/-- C2: the claim says every record returned by `toRecords` is exactly 80
characters long. The code pads a COMMENT record with `padEnd(80)` only after
concatenating the 8-character keyword field, one separator space and up to
72 characters of text, so a 72-character comment text yields an
81-character record: evaluating `toRecords` on a store holding exactly that
card returns a first record of length 81. -/
theorem c2_comment_record_length_81 :
    ((FitsHeader.empty.addComment ⟨List.replicate 72 'a'⟩).toRecords.map
        (fun r => r.data.length)).head? = some 81 := by decide

/-- C6: for any key other than COMMENT/HISTORY, `set` succeeds with the
`setCore` update; `get` then returns the latest value; when the key already
exists its position in `keys()` is preserved (the key list is unchanged) and
the map entry holds the new value, with the comment replaced exactly when
one is provided; when the key is new it is appended at the end of the
iteration order. -/
theorem c6_set_update_semantics (h : FitsHeader) (k : String) (v : Option FitsValue)
    (c : Option String) (hk1 : k ≠ "COMMENT") (hk2 : k ≠ "HISTORY") :
    h.set k v c = .ok (h.setCore k v c) ∧
    (h.setCore k v c).get k = v ∧
    (h.mapFind k ≠ none → (h.setCore k v c).keys = h.keys) ∧
    (h.mapFind k = none → (h.setCore k v c).keys = h.keys ++ [k]) ∧
    (∀ mc, h.mapFind k = some mc →
      (h.setCore k v c).mapFind k =
        some ⟨v, match c with | some cc => some cc | none => mc.comment⟩) := by
  refine ⟨?_, h.get_setCore_self k v c, h.keys_setCore_of_mem k v c,
          h.keys_setCore_of_not_mem k v c, ?_⟩
  · have hcond : (k = "COMMENT" || k = "HISTORY") = false := by simp [hk1, hk2]
    unfold FitsHeader.set
    rw [hcond]
    rfl
  · intro mc hmc
    unfold FitsHeader.setCore
    rw [hmc]
    unfold FitsHeader.mapFind at hmc ⊢
    rw [FitsHeader.find?_setCore_map]
    cases hf : h.cards.find? (fun p => p.1 = k) with
    | none => rw [hf] at hmc; exact absurd hmc (by simp)
    | some p =>
      rw [hf] at hmc
      simp only [Option.map_some'] at hmc ⊢
      rw [Option.some_inj.mp hmc]

/-- C6 witness: updating an existing key keeps its position and `get`
returns the new value. -/
theorem c6_set_update_semantics_witness :
    (FitsHeader.empty.setCore "A" (some (.vint 1)) none).set "A" (some (.vint 2)) (some "x")
        = .ok ((FitsHeader.empty.setCore "A" (some (.vint 1)) none).setCore "A"
                (some (.vint 2)) (some "x")) ∧
    ((FitsHeader.empty.setCore "A" (some (.vint 1)) none).setCore "A"
        (some (.vint 2)) (some "x")).get "A" = some (.vint 2) ∧ True :=
  ⟨(c6_set_update_semantics _ "A" _ _ (by decide) (by decide)).1,
   (c6_set_update_semantics _ "A" _ _ (by decide) (by decide)).2.1, trivial⟩

/-- C7: `set` with key COMMENT or HISTORY always fails with the
InvalidOperation error (the store value is returned unchanged, the error
carrying the source's message), while `addComment`/`addHistory` always
succeed and append their card at the end of the `keys()` order. -/
theorem c7_comment_history_api (h : FitsHeader) (v : Option FitsValue)
    (c : Option String) (t : String) :
    h.set "COMMENT" v c = .error ⟨"Use addComment/addHistory to add COMMENT cards."⟩ ∧
    h.set "HISTORY" v c = .error ⟨"Use addComment/addHistory to add HISTORY cards."⟩ ∧
    (h.addComment t).keys = h.keys ++ ["COMMENT"] ∧
    (h.addHistory t).keys = h.keys ++ ["HISTORY"] := by
  refine ⟨?_, ?_, ?_, ?_⟩
  · unfold FitsHeader.set; rfl
  · unfold FitsHeader.set; rfl
  · simp [FitsHeader.addComment, FitsHeader.keys]
  · simp [FitsHeader.addHistory, FitsHeader.keys]

/-- C8: `remove` of an absent key (no entry in the card map) is a no-op
and raises no error; removing a present key deletes its value and removes
the key from the `keys()` iteration order. -/
theorem c8_remove_semantics (h : FitsHeader) (k : String) :
    (h.mapFind k = none → h.remove k = h) ∧
    (h.mapFind k ≠ none →
      (h.remove k).get k = none ∧ (h.remove k).keys = h.keys.filter (· ≠ k)) := by
  constructor
  · intro hnone
    unfold FitsHeader.remove
    rw [hnone]
  · intro hmem
    unfold FitsHeader.remove
    cases hfind : h.mapFind k with
    | none => exact absurd hfind hmem
    | some mc =>
      constructor
      · unfold FitsHeader.get FitsHeader.mapFind
        rw [FitsHeader.find?_filter_ne]
        rfl
      · exact FitsHeader.map_key_filter h.cardList k

/-- C8 witness: removing an absent key is a no-op; removing a present key
clears it. -/
theorem c8_remove_semantics_witness :
    ((FitsHeader.empty.setCore "A" (some (.vint 1)) none).remove "B"
        = FitsHeader.empty.setCore "A" (some (.vint 1)) none) ∧
    ((FitsHeader.empty.setCore "A" (some (.vint 1)) none).remove "A").get "A" = none :=
  ⟨(c8_remove_semantics _ "B").1 (by decide),
   ((c8_remove_semantics _ "A").2 (by decide)).1⟩

/-- C9: appending an extension HDU to a container with no HDUs fails with
the structure error (`Primary HDU is not defined`), the container value
being unchanged; appending to a container with exactly one HDU succeeds and
injects `EXTEND = true` into the primary HDU's header. -/
theorem c9_addHDU_semantics (f : Fits) (hdu : FitsHDU) :
    (f.hdus = [] → f.addHDU hdu = .error ⟨"Primary HDU is not defined. Cannot add extension."⟩) ∧
    (∀ p, f.hdus = [p] →
      f.addHDU hdu = .ok ⟨[primaryWithExtend p, hdu]⟩ ∧
      (primaryWithExtend p).header.get "EXTEND" = some (.vbool true)) := by
  constructor
  · intro hnil
    unfold Fits.addHDU
    rw [hnil]
  · intro p hone
    constructor
    · unfold Fits.addHDU
      rw [hone]
    · exact p.header.get_setCore_self "EXTEND" (some (.vbool true)) (some "File has extensions")

/-- C9 witness: the empty container rejects an extension; a single-HDU
container accepts it and gains `EXTEND = true`. -/
theorem c9_addHDU_semantics_witness :
    Fits.addHDU ⟨[]⟩ ⟨FitsHeader.empty, none, false, none⟩
        = .error ⟨"Primary HDU is not defined. Cannot add extension."⟩ ∧
    (FitsHeader.empty.setCore "EXTEND" (some (.vbool true))
        (some "File has extensions")).get "EXTEND" = some (.vbool true) :=
  ⟨(c9_addHDU_semantics ⟨[]⟩ ⟨FitsHeader.empty, none, false, none⟩).1 rfl,
   ((c9_addHDU_semantics ⟨[⟨FitsHeader.empty, none, true, none⟩]⟩
        ⟨FitsHeader.empty, none, false, none⟩).2 ⟨FitsHeader.empty, none, true, none⟩ rfl).2⟩

/-- C10: decoding an empty byte buffer raises no error and returns a
container with zero HDUs (hence without the primary HDU the container
invariant otherwise requires). -/
theorem c10_decode_empty_buffer :
    Fits.fromArrayBuffer [] = .ok ⟨[]⟩ := by rfl

/-- C5: value interpretation of a card's value text: empty text is absent;
text starting with a single quote yields the string content up to the last
quote in the field, with doubled quotes unescaped (the claim presupposes a
closing quote after the opening one, i.e. a last-quote index above 0);
text exactly `T`/`F` yields a boolean; any other text has its `D` exponent
marker substituted by `E` and is then parsed as a float when it contains
`.`, `e` or `E`, else as an integer (JS `parseInt`, whose no-digit `NaN`
outcome is the `vnan` value). -/
theorem c5_parseValue_interpretation (s : String) :
    (s = "" → parseValue s = none) ∧
    (∀ i, jsStartsWith s "'" = true → jsLastIndexOfChar s '\'' = some i → 0 < i →
      parseValue s = some (.vstr (unescapeQuotes (jsSlice s 1 i)))) ∧
    (s = "T" → parseValue s = some (.vbool true)) ∧
    (s = "F" → parseValue s = some (.vbool false)) ∧
    (jsStartsWith s "'" = false → s ≠ "" → s ≠ "T" → s ≠ "F" →
      (hasFloatMark (replaceFirstD s) = true →
        parseValue s = some (.vfloat (replaceFirstD s))) ∧
      (∀ n, hasFloatMark (replaceFirstD s) = false →
        jsParseInt (replaceFirstD s) = some n →
        parseValue s = some (.vint n)) ∧
      (hasFloatMark (replaceFirstD s) = false → jsParseInt (replaceFirstD s) = none →
        parseValue s = some .vnan)) := by
  refine ⟨?_, ?_, ?_, ?_, ?_⟩
  · intro hs; subst hs; rfl
  · intro i hq hlast hpos
    have hne : ¬ s = "" := by
      intro hs; subst hs; simp [jsStartsWith, List.isPrefixOf] at hq
    rw [parseValue, if_neg hne, if_pos hq, hlast]
    simp [hpos]
  · intro hs; subst hs; rfl
  · intro hs; subst hs; rfl
  · intro hq hne hT hF
    refine ⟨?_, ?_, ?_⟩
    · intro hfm
      unfold parseValue
      rw [if_neg hne, if_neg (by simp [hq]), if_neg (by simp [hT, hF])]
      simp [hfm]
    · intro n hfm hparse
      unfold parseValue
      rw [if_neg hne, if_neg (by simp [hq]), if_neg (by simp [hT, hF])]
      simp [hfm, hparse]
    · intro hfm hparse
      unfold parseValue
      rw [if_neg hne, if_neg (by simp [hq]), if_neg (by simp [hT, hF])]
      simp [hfm, hparse]

/-- C4: during decode, a header whose cards start at stream offset 0 fails
with the missing-SIMPLE FormatError when the first stored key of the built
header is not SIMPLE; a header starting at any later offset fails with the
missing-XTENSION FormatError when its first stored key is not XTENSION;
and every successfully decoded extension header has `EXTEND = true`
injected into it. -/
theorem c4_parseHeader_validation (buf : List Char) (off : Nat) (cards : List String) :
    (readHeaderCards buf 0 = .ok cards →
      (buildHeaderFromCards cards).1.keys.head? ≠ some "SIMPLE" →
      parseHeaderAt buf 0 =
        .error ⟨"Invalid FITS file: primary HDU missing SIMPLE keyword."⟩) ∧
    (off ≠ 0 → readHeaderCards buf off = .ok cards →
      (buildHeaderFromCards cards).1.keys.head? ≠ some "XTENSION" →
      parseHeaderAt buf off =
        .error ⟨"Invalid FITS file: extension HDU missing XTENSION keyword."⟩) ∧
    (∀ r, off ≠ 0 → parseHeaderAt buf off = .ok r →
      r.header.get "EXTEND" = some (.vbool true)) := by
  refine ⟨?_, ?_, ?_⟩
  · intro hcards hkey
    unfold parseHeaderAt
    rw [hcards]
    dsimp only
    rcases hb : buildHeaderFromCards cards with ⟨hd, ext⟩
    dsimp only
    rw [if_pos (by rw [hb] at hkey; simpa using hkey)]
  · intro hoff hcards hkey
    unfold parseHeaderAt
    rw [hcards]
    dsimp only
    rcases hb : buildHeaderFromCards cards with ⟨hd, ext⟩
    dsimp only
    rw [if_neg (by simp [hoff]),
        if_pos (by rw [hb] at hkey; simp [hoff]; simpa using hkey)]
  · intro r hoff hok
    unfold parseHeaderAt at hok
    cases hrc : readHeaderCards buf off with
    | error e => rw [hrc] at hok; cases hok
    | ok cards' =>
      rw [hrc] at hok
      dsimp only at hok
      split_ifs at hok with h1 h2
      all_goals try cases hok
      all_goals
        exact (buildHeaderFromCards cards').1.get_setCore_self "EXTEND"
          (some (.vbool true)) none

/-- C4 witness: a primary header block lacking SIMPLE is rejected; a
header at a later offset whose first key is not XTENSION is rejected with
the XTENSION error; a well-formed extension header decodes with
`EXTEND = true`. -/
theorem c4_parseHeader_validation_witness :
    parseHeaderAt noSimpleBuf 0 =
      .error ⟨"Invalid FITS file: primary HDU missing SIMPLE keyword."⟩ ∧
    parseHeaderAt smallBadExtBuf 80 =
      .error ⟨"Invalid FITS file: extension HDU missing XTENSION keyword."⟩ ∧
    ∃ r, parseHeaderAt smallExtBuf 80 = .ok r ∧
      r.header.get "EXTEND" = some (.vbool true) := by
  refine ⟨?_, ?_, ?_⟩
  · exact (c4_parseHeader_validation noSimpleBuf 0
      [jsPadEnd "BITPIX  =                   16 / bits per data value" 80,
       jsPadEnd "NAXIS   =                    2 / number of data axes" 80]).1
      (by decide) (by decide)
  · exact (c4_parseHeader_validation smallBadExtBuf 80
      [jsPadEnd "BITPIX  =                    8" 80]).2.1
      (by decide) (by decide) (by decide)
  · cases hp : parseHeaderAt smallExtBuf 80 with
    | error e =>
      have hsome : (parseHeaderAt smallExtBuf 80).toOption.isSome = true := by decide
      rw [hp] at hsome
      cases hsome
    | ok r =>
      exact ⟨r, rfl, (c4_parseHeader_validation smallExtBuf 80 []).2.2 r (by decide) hp⟩

/-- The per-axis fold evaluates to the product of the axis values when
every axis in range reads as an integer. -/
theorem foldl_axisStep_eq (h : FitsHeader) (ax : Nat → Int) :
    ∀ (is : List Nat) (acc : Int),
      (∀ i ∈ is, numOrDefault (h.get (s!"NAXIS{i}")) 1 = some (ax i)) →
      is.foldl (axisStep h) (some acc) = some (acc * (is.map ax).prod) := by
  intro is
  induction is with
  | nil => intro acc _; simp
  | cons j js ih =>
    intro acc hall
    have hj := hall j (by simp)
    rw [List.foldl_cons]
    have hstep : axisStep h (some acc) j = some (acc * ax j) := by
      simp [axisStep, hj]
    rw [hstep, ih (acc * ax j) (fun i hi => hall i (by simp [hi]))]
    simp [mul_assoc]

/-- C3: during decode, for a header whose `NAXIS` is an integer `n > 0`, the
computed data byte length equals `|BITPIX| * GCOUNT * (PCOUNT + NAXIS1 *
... * NAXISn) / 8` with `PCOUNT` defaulting to 0 and `GCOUNT` defaulting to
1 (stated for the byte-exact division the format guarantees); the length is
0 when `NAXIS` is absent or 0; and for the 100×100 16-bit minimal image
header the computed data length is exactly 20000 bytes and the computed
header byte length is a positive multiple of 2880. -/
theorem c3_data_byte_length (h : FitsHeader) (n : Nat) (b p g : Int)
    (ax : Nat → Int)
    (hn : h.get "NAXIS" = some (.vint (n : Int))) (hpos : 0 < n)
    (hbp : h.get "BITPIX" = some (.vint b))
    (hpc : numOrDefault (h.get "PCOUNT") 0 = some p)
    (hgc : numOrDefault (h.get "GCOUNT") 1 = some g)
    (hax : ∀ i, i ∈ List.range' 1 n → numOrDefault (h.get (s!"NAXIS{i}")) 1 = some (ax i))
    (hdvd : (8 : Int) ∣ (b.natAbs : Int) * g * (p + ((List.range' 1 n).map ax).prod)) :
    computeDataBytes h
      = some ((b.natAbs : Int) * g * (p + ((List.range' 1 n).map ax).prod) / 8) ∧
    (∀ h' : FitsHeader, h'.get "NAXIS" = none ∨ h'.get "NAXIS" = some (.vint 0) →
      computeDataBytes h' = some 0) ∧
    (∃ r, parseHeaderAt minimalImageBuf 0 = .ok r ∧ r.dataBytes = some 20000 ∧
      r.headerBytes % 2880 = 0 ∧ 0 < r.headerBytes) := by
  refine ⟨?_, ?_, ?_⟩
  · have hn' : numOrDefault (h.get "NAXIS") 0 = some ((n : Nat) : Int) := by
      rw [hn]; rfl
    unfold computeDataBytes
    rw [hn']
    dsimp only
    rw [if_pos (by exact_mod_cast hpos)]
    rw [hbp]
    dsimp only [jsToNumberInt]
    rw [hpc, hgc]
    unfold axisProduct
    rw [show ((n : Int)).toNat = n from Int.toNat_natCast n]
    rw [foldl_axisStep_eq h ax (List.range' 1 n) 1 hax]
    dsimp only
    rw [one_mul, if_pos hdvd]
  · intro h' hcase
    unfold computeDataBytes
    rcases hcase with hnone | hzero
    · rw [hnone]; rfl
    · rw [hzero]; rfl
  · cases hp : parseHeaderAt minimalImageBuf 0 with
    | error e =>
      have hsome : (parseHeaderAt minimalImageBuf 0).toOption.isSome = true := by decide
      rw [hp] at hsome
      cases hsome
    | ok r =>
      have hdata : (parseHeaderAt minimalImageBuf 0).toOption.map (·.dataBytes)
          = some (some 20000) := by decide
      have hhead : (parseHeaderAt minimalImageBuf 0).toOption.map (·.headerBytes)
          = some 2880 := by decide
      rw [hp] at hdata hhead
      simp only [Except.toOption, Option.map_some'] at hdata hhead
      have hd := Option.some_inj.mp hdata
      have hh := Option.some_inj.mp hhead
      exact ⟨r, rfl, hd, by rw [hh], by rw [hh]; norm_num⟩

/-- C3 witness: the minimal 100×100 16-bit header satisfies the formula
hypotheses, and 16 * 1 * (0 + 100*100) / 8 = 20000. -/
theorem c3_data_byte_length_witness :
    ∃ r, parseHeaderAt minimalImageBuf 0 = .ok r ∧ r.dataBytes = some 20000 ∧
      r.headerBytes % 2880 = 0 ∧ 0 < r.headerBytes := by
  have h := c3_data_byte_length
    ((((FitsHeader.empty.setCore "BITPIX" (some (.vint 16)) none).setCore
        "NAXIS" (some (.vint 2)) none).setCore
        "NAXIS1" (some (.vint 100)) none).setCore
        "NAXIS2" (some (.vint 100)) none)
    2 16 0 1 (fun i => if i = 1 then 100 else 100)
    (by decide) (by decide) (by decide) (by decide) (by decide)
    (by intro i hi; fin_cases hi <;> decide)
    (by decide)
  exact h.2.2

/-- C5 witness: the quote-escaping, boolean and integer paths at concrete
inputs. -/
theorem c5_parseValue_interpretation_witness :
    parseValue "'O''Reilly'" = some (.vstr "O'Reilly") ∧
    parseValue "T" = some (.vbool true) ∧
    parseValue "-17" = some (.vint (-17)) :=
  ⟨by
    have h := (c5_parseValue_interpretation "'O''Reilly'").2.1 10 (by decide) (by decide)
      (by decide)
    simpa using h,
   (c5_parseValue_interpretation "T").2.2.1 rfl,
   by
    have h := ((c5_parseValue_interpretation "-17").2.2.2.2 (by decide) (by decide)
        (by decide) (by decide)).2.1 (-17) (by decide) (by decide)
    simpa using h⟩

end FitsTS
